import Mathlib

/-!
Verification of the secure-chat repository core: the AES-GCM message cipher
wrapper, the signed deletion protocol, and the signaling relay routes.

Modelling conventions, used throughout:
* JavaScript strings are modelled as lists of Unicode code points (`JStr`);
  byte arrays (`Uint8Array`, `ArrayBuffer`) as lists of naturals below 256.
* The deterministic platform string functions the source calls
  (`btoa`/`atob`, `TextEncoder`/`TextDecoder`, `JSON.stringify` on the fixed
  record shapes, decimal rendering of numbers) are implemented concretely.
* The keyed cryptographic primitives (`crypto.subtle` AES-GCM and ECDSA) are
  parameters of the definitions that call them, constrained by the standard
  correctness hypotheses of an AEAD / signature scheme where a theorem needs
  them; `crypto.getRandomValues` output is an explicit input.
* Database-backed route handlers become pure state transformers over record
  lists; the list order of a table models the storage order that Prisma's
  `orderBy: createdAt asc` queries return (sortedness is an explicit
  hypothesis where a conclusion depends on it).
-/

namespace Chat

/-- A JavaScript string, as its list of Unicode code points. -/
abbrev JStr := List Nat

/-- A Unicode scalar value: in range and not a surrogate. -/
def ValidScalar (c : Nat) : Prop := c < 1114112 ∧ ¬(55296 ≤ c ∧ c < 57344)

instance (c : Nat) : Decidable (ValidScalar c) := by
  unfold ValidScalar; infer_instance

/-- Code points of a Lean string literal (used for the fixed parts of the
JSON encodings appearing in the source). -/
def strCodes (s : String) : JStr := s.data.map Char.toNat

/-! ### Decimal rendering of numbers

`JSON.stringify` renders the integral `timestamp` field in decimal; this is
`toDec`, producing the list of digit code points. -/

/-- Decimal digits of a natural number, with explicit recursion fuel
(`fuel` is always enough below, where it is instantiated with `n + 1`). -/
def toDecAux : Nat → Nat → List Nat
  | 0, _ => []
  | fuel + 1, n => if n < 10 then [48 + n] else toDecAux fuel (n / 10) ++ [48 + n % 10]

/-- Decimal digits (as code points 48–57) of a natural number. -/
def toDec (n : Nat) : List Nat := toDecAux (n + 1) n

/-- Read decimal digit code points back into a number. -/
def fromDec (l : List Nat) : Nat := l.foldl (fun a d => a * 10 + (d - 48)) 0

theorem toDecAux_digits : ∀ fuel n, ∀ d ∈ toDecAux fuel n, 48 ≤ d ∧ d ≤ 57 := by
  intro fuel
  induction fuel with
  | zero => intro n d hd; simp [toDecAux] at hd
  | succ f ih =>
    intro n d hd
    rw [toDecAux] at hd
    split at hd
    · simp only [List.mem_singleton] at hd
      omega
    · rcases List.mem_append.mp hd with h | h
      · exact ih (n / 10) d h
      · simp only [List.mem_singleton] at h
        omega

theorem toDec_digits (n : Nat) : ∀ d ∈ toDec n, 48 ≤ d ∧ d ≤ 57 :=
  toDecAux_digits (n + 1) n

theorem toDec_ne_nil (n : Nat) : toDec n ≠ [] := by
  rw [toDec, toDecAux]
  split <;> simp

theorem fromDec_toDecAux : ∀ fuel n, n < 10 ^ fuel → fromDec (toDecAux fuel n) = n := by
  intro fuel
  induction fuel with
  | zero => intro n h; simp at h; simp [toDecAux, fromDec, h]
  | succ f ih =>
    intro n h
    rw [toDecAux]
    split
    · simp [fromDec]
    · unfold fromDec
      rw [List.foldl_append]
      have hdiv : n / 10 < 10 ^ f := by
        rw [Nat.div_lt_iff_lt_mul (by omega)]
        calc n < 10 ^ (f + 1) := h
        _ = 10 ^ f * 10 := by ring
      have h1 := ih (n / 10) hdiv
      unfold fromDec at h1
      rw [h1]
      simp only [List.foldl_cons, List.foldl_nil]
      omega

theorem fromDec_toDec (n : Nat) : fromDec (toDec n) = n := by
  apply fromDec_toDecAux
  have h1 : n < 10 ^ n := Nat.lt_pow_self (by omega) n
  have h2 : 10 ^ n ≤ 10 ^ (n + 1) := Nat.pow_le_pow_right (by omega) (by omega)
  omega

theorem toDec_inj {a b : Nat} (h : toDec a = toDec b) : a = b := by
  have := congrArg fromDec h
  rwa [fromDec_toDec, fromDec_toDec] at this

/-! ### Separator lemmas

Cancellation for concatenations `l ++ sep :: r` where `sep` does not occur
in `l`: used to invert the canonical JSON encodings. -/

theorem takeWhile_ne_append (l r : List Nat) (sep : Nat) (h : ∀ x ∈ l, x ≠ sep) :
    ((l ++ sep :: r).takeWhile (fun x => x != sep)) = l := by
  induction l with
  | nil => simp [List.takeWhile]
  | cons a t ih =>
    have ha : a ≠ sep := h a (by simp)
    simp only [List.cons_append, List.takeWhile_cons]
    rw [if_pos (by simpa using ha)]
    rw [ih (fun x hx => h x (by simp [hx]))]

theorem dropWhile_ne_append (l r : List Nat) (sep : Nat) (h : ∀ x ∈ l, x ≠ sep) :
    ((l ++ sep :: r).dropWhile (fun x => x != sep)) = sep :: r := by
  induction l with
  | nil => simp [List.dropWhile]
  | cons a t ih =>
    have ha : a ≠ sep := h a (by simp)
    simp only [List.cons_append, List.dropWhile_cons]
    rw [if_pos (by simpa using ha)]
    exact ih (fun x hx => h x (by simp [hx]))

theorem sep_append_cancel {l l' r r' : List Nat} {sep : Nat}
    (h : ∀ x ∈ l, x ≠ sep) (h' : ∀ x ∈ l', x ≠ sep)
    (heq : l ++ sep :: r = l' ++ sep :: r') : l = l' ∧ r = r' := by
  have h1 : l = l' := by
    have := congrArg (List.takeWhile (fun x => x != sep)) heq
    rwa [takeWhile_ne_append l r sep h, takeWhile_ne_append l' r' sep h'] at this
  subst h1
  exact ⟨rfl, by simpa using List.append_cancel_left heq⟩

/-! ### Base64 (`btoa` / `atob`)

`btoa(String.fromCharCode(...bytes))` maps a byte list to the list of code
points of its base64 encoding; `atob` is the inverse, failing (the source
catches the exception) on strings that are not base64. -/

/-- The base64 alphabet: sextet value to character code. -/
def b64c (i : Nat) : Nat :=
  if i < 26 then 65 + i
  else if i < 52 then 97 + (i - 26)
  else if i < 62 then 48 + (i - 52)
  else if i = 62 then 43
  else 47

/-- Character code back to sextet value. -/
def b64v (c : Nat) : Option Nat :=
  if 65 ≤ c ∧ c ≤ 90 then some (c - 65)
  else if 97 ≤ c ∧ c ≤ 122 then some (c - 97 + 26)
  else if 48 ≤ c ∧ c ≤ 57 then some (c - 48 + 52)
  else if c = 43 then some 62
  else if c = 47 then some 63
  else none

/-- Model of `btoa` on a byte list (61 is the code of the padding character). -/
def base64Encode : List Nat → List Nat
  | [] => []
  | [a] => [b64c (a / 4), b64c (a % 4 * 16), 61, 61]
  | [a, b] => [b64c (a / 4), b64c (a % 4 * 16 + b / 16), b64c (b % 16 * 4), 61]
  | a :: b :: c :: rest =>
    b64c (a / 4) :: b64c (a % 4 * 16 + b / 16) :: b64c (b % 16 * 4 + c / 64) ::
      b64c (c % 64) :: base64Encode rest

/-- Model of `atob`, returning `none` where the browser function throws
`InvalidCharacterError` (as the WHATWG function, trailing padding may be
omitted and spare bits of a final partial group are discarded). -/
def base64Decode : List Nat → Option (List Nat)
  | [] => some []
  | [_] => none
  | [c1, c2] =>
    match b64v c1, b64v c2 with
    | some v1, some v2 => some [v1 * 4 + v2 / 16]
    | _, _ => none
  | [c1, c2, c3] =>
    if c3 = 61 then
      match b64v c1, b64v c2 with
      | some v1, some v2 => some [v1 * 4 + v2 / 16]
      | _, _ => none
    else
      match b64v c1, b64v c2, b64v c3 with
      | some v1, some v2, some v3 => some [v1 * 4 + v2 / 16, v2 % 16 * 16 + v3 / 4]
      | _, _, _ => none
  | c1 :: c2 :: c3 :: c4 :: rest =>
    if rest = [] then
      if c3 = 61 ∧ c4 = 61 then
        match b64v c1, b64v c2 with
        | some v1, some v2 => some [v1 * 4 + v2 / 16]
        | _, _ => none
      else if c4 = 61 then
        match b64v c1, b64v c2, b64v c3 with
        | some v1, some v2, some v3 => some [v1 * 4 + v2 / 16, v2 % 16 * 16 + v3 / 4]
        | _, _, _ => none
      else
        match b64v c1, b64v c2, b64v c3, b64v c4 with
        | some v1, some v2, some v3, some v4 =>
          some [v1 * 4 + v2 / 16, v2 % 16 * 16 + v3 / 4, v3 % 4 * 64 + v4]
        | _, _, _, _ => none
    else
      match b64v c1, b64v c2, b64v c3, b64v c4, base64Decode rest with
      | some v1, some v2, some v3, some v4, some bs =>
        some ((v1 * 4 + v2 / 16) :: (v2 % 16 * 16 + v3 / 4) :: (v3 % 4 * 64 + v4) :: bs)
      | _, _, _, _, _ => none

theorem b64v_b64c : ∀ i, i < 64 → b64v (b64c i) = some i := by decide

theorem b64c_ne_61 : ∀ i, i < 64 → b64c i ≠ 61 := by decide

theorem base64Encode_ne_nil {l : List Nat} (h : l ≠ []) : base64Encode l ≠ [] := by
  match l with
  | [] => exact absurd rfl h
  | [a] => simp [base64Encode]
  | [a, b] => simp [base64Encode]
  | a :: b :: c :: rest => simp [base64Encode]

theorem base64_roundtrip :
    ∀ (l : List Nat), (∀ b ∈ l, b < 256) → base64Decode (base64Encode l) = some l
  | [], _ => rfl
  | [a], h => by
    have ha : a < 256 := h a (by simp)
    have h1 : a / 4 < 64 := by omega
    have h2 : a % 4 * 16 < 64 := by omega
    simp [base64Encode, base64Decode, b64v_b64c _ h1, b64v_b64c _ h2]
    omega
  | [a, b], h => by
    have ha : a < 256 := h a (by simp)
    have hb : b < 256 := h b (by simp)
    have h1 : a / 4 < 64 := by omega
    have h2 : a % 4 * 16 + b / 16 < 64 := by omega
    have h3 : b % 16 * 4 < 64 := by omega
    simp [base64Encode, base64Decode, b64v_b64c _ h1, b64v_b64c _ h2, b64v_b64c _ h3,
      b64c_ne_61 _ h3]
    omega
  | a :: b :: c :: rest, h => by
    have ha : a < 256 := h a (by simp)
    have hb : b < 256 := h b (by simp)
    have hc : c < 256 := h c (by simp)
    have h1 : a / 4 < 64 := by omega
    have h2 : a % 4 * 16 + b / 16 < 64 := by omega
    have h3 : b % 16 * 4 + c / 64 < 64 := by omega
    have h4 : c % 64 < 64 := by omega
    have ih := base64_roundtrip rest (fun x hx => h x (by simp [hx]))
    by_cases hr : rest = []
    · subst hr
      simp [base64Encode, base64Decode, b64v_b64c _ h1, b64v_b64c _ h2, b64v_b64c _ h3,
        b64v_b64c _ h4, b64c_ne_61 _ h3, b64c_ne_61 _ h4]
      omega
    · have hne : base64Encode rest ≠ [] := base64Encode_ne_nil hr
      simp [base64Encode, base64Decode, b64v_b64c _ h1, b64v_b64c _ h2, b64v_b64c _ h3,
        b64v_b64c _ h4, hne, ih]
      omega

theorem base64Encode_inj {l l' : List Nat} (h : ∀ b ∈ l, b < 256)
    (h' : ∀ b ∈ l', b < 256) (heq : base64Encode l = base64Encode l') : l = l' := by
  have h1 := base64_roundtrip l h
  rw [heq, base64_roundtrip l' h'] at h1
  exact (Option.some.inj h1).symm

/-! ### UTF-8 (`TextEncoder` / `TextDecoder`)

`TextEncoder.encode` maps a string to its UTF-8 bytes; `TextDecoder.decode`
(the default, non-fatal decoder the source constructs) maps bytes back,
emitting U+FFFD (65533) for malformed sequences instead of throwing.  The
replacement behaviour is irrelevant to the theorems below: on every path
they take, decoding consumes exactly what `utf8EncodeChar` produced. -/

/-- UTF-8 bytes of one Unicode scalar value. -/
def utf8EncodeChar (c : Nat) : List Nat :=
  if c < 128 then [c]
  else if c < 2048 then [192 + c / 64, 128 + c % 64]
  else if c < 65536 then [224 + c / 4096, 128 + c / 64 % 64, 128 + c % 64]
  else [240 + c / 262144, 128 + c / 4096 % 64, 128 + c / 64 % 64, 128 + c % 64]

/-- Model of `TextEncoder.encode`. -/
def utf8Encode (s : JStr) : List Nat := s.flatMap utf8EncodeChar

/-- One step of the UTF-8 decoder: given a lead byte and the bytes after
it, produce the decoded scalar value (65533, U+FFFD, for malformed input)
and how many continuation bytes were consumed. -/
def utf8Step (b : Nat) (rest : List Nat) : Nat × Nat :=
  if b < 128 then (b, 0)
  else if b < 192 then (65533, 0)
  else if b < 224 then
    match rest with
    | b2 :: _ =>
      if 128 ≤ b2 ∧ b2 < 192 then
        if 128 ≤ (b - 192) * 64 + (b2 - 128) then ((b - 192) * 64 + (b2 - 128), 1)
        else (65533, 1)
      else (65533, 0)
    | [] => (65533, 0)
  else if b < 240 then
    match rest with
    | b2 :: b3 :: _ =>
      if (128 ≤ b2 ∧ b2 < 192) ∧ (128 ≤ b3 ∧ b3 < 192) then
        if 2048 ≤ (b - 224) * 4096 + (b2 - 128) * 64 + (b3 - 128) ∧
            ¬(55296 ≤ (b - 224) * 4096 + (b2 - 128) * 64 + (b3 - 128) ∧
              (b - 224) * 4096 + (b2 - 128) * 64 + (b3 - 128) < 57344) then
          ((b - 224) * 4096 + (b2 - 128) * 64 + (b3 - 128), 2)
        else (65533, 2)
      else (65533, 0)
    | _ => (65533, rest.length)
  else if b < 248 then
    match rest with
    | b2 :: b3 :: b4 :: _ =>
      if (128 ≤ b2 ∧ b2 < 192) ∧ (128 ≤ b3 ∧ b3 < 192) ∧ (128 ≤ b4 ∧ b4 < 192) then
        if 65536 ≤ (b - 240) * 262144 + (b2 - 128) * 4096 + (b3 - 128) * 64 + (b4 - 128) ∧
            (b - 240) * 262144 + (b2 - 128) * 4096 + (b3 - 128) * 64 + (b4 - 128) < 1114112 then
          ((b - 240) * 262144 + (b2 - 128) * 4096 + (b3 - 128) * 64 + (b4 - 128), 3)
        else (65533, 3)
      else (65533, 0)
    | _ => (65533, rest.length)
  else (65533, 0)

/-- Model of `TextDecoder.decode` with the default (replacement) error mode. -/
def utf8Decode : List Nat → JStr
  | [] => []
  | b :: rest => (utf8Step b rest).1 :: utf8Decode (rest.drop (utf8Step b rest).2)
termination_by l => l.length
decreasing_by
  simp_wf
  have hld := List.length_drop (utf8Step b rest).2 rest
  omega

theorem utf8EncodeChar_bytes {c : Nat} (h : c < 1114112) :
    ∀ b ∈ utf8EncodeChar c, b < 256 := by
  unfold utf8EncodeChar
  split
  · intro b hb; simp at hb; omega
  · split
    · intro b hb
      have h1 : c / 64 < 32 := by omega
      simp at hb
      omega
    · split
      · intro b hb
        have h1 : c / 4096 < 16 := by omega
        have h2 : c / 64 % 64 < 64 := by omega
        simp at hb
        omega
      · intro b hb
        have h1 : c / 262144 < 5 := by omega
        have h2 : c / 4096 % 64 < 64 := by omega
        have h3 : c / 64 % 64 < 64 := by omega
        simp at hb
        rcases hb with hb | hb | hb | hb <;> omega

theorem utf8Encode_bytes {s : JStr} (h : ∀ c ∈ s, ValidScalar c) :
    ∀ b ∈ utf8Encode s, b < 256 := by
  intro b hb
  simp only [utf8Encode, List.mem_flatMap] at hb
  obtain ⟨c, hc, hbc⟩ := hb
  exact utf8EncodeChar_bytes (h c hc).1 b hbc

theorem utf8Decode_cons (b : Nat) (l : List Nat) :
    utf8Decode (b :: l) = (utf8Step b l).1 :: utf8Decode (l.drop (utf8Step b l).2) := by
  rw [utf8Decode]

theorem utf8Decode_encodeChar (c : Nat) (h : ValidScalar c) (rest : List Nat) :
    utf8Decode (utf8EncodeChar c ++ rest) = c :: utf8Decode rest := by
  obtain ⟨hlt, hsurr⟩ := h
  rcases Nat.lt_or_ge c 128 with h1 | h1
  · have e : utf8EncodeChar c = [c] := by rw [utf8EncodeChar, if_pos h1]
    have hs : utf8Step c rest = (c, 0) := by unfold utf8Step; rw [if_pos h1]
    rw [e, List.cons_append, List.nil_append, utf8Decode_cons, hs]
    simp
  · rcases Nat.lt_or_ge c 2048 with h2 | h2
    · have e : utf8EncodeChar c = [192 + c / 64, 128 + c % 64] := by
        rw [utf8EncodeChar, if_neg (by omega), if_pos h2]
      have hb : c / 64 < 32 := by omega
      have hv : (192 + c / 64 - 192) * 64 + (128 + c % 64 - 128) = c := by omega
      have hs : utf8Step (192 + c / 64) ((128 + c % 64) :: rest) = (c, 1) := by
        unfold utf8Step
        rw [if_neg (by omega), if_neg (by omega), if_pos (by omega)]
        dsimp only
        rw [if_pos (by constructor <;> omega), if_pos (by omega), hv]
      rw [e]
      show utf8Decode ((192 + c / 64) :: ((128 + c % 64) :: rest)) = _
      rw [utf8Decode_cons, hs]
      simp
    · rcases Nat.lt_or_ge c 65536 with h3 | h3
      · have e : utf8EncodeChar c = [224 + c / 4096, 128 + c / 64 % 64, 128 + c % 64] := by
          rw [utf8EncodeChar, if_neg (by omega), if_neg (by omega), if_pos h3]
        have hb : c / 4096 < 16 := by omega
        have hv : (224 + c / 4096 - 224) * 4096 + (128 + c / 64 % 64 - 128) * 64 +
            (128 + c % 64 - 128) = c := by omega
        have hs : utf8Step (224 + c / 4096) ((128 + c / 64 % 64) :: (128 + c % 64) :: rest) =
            (c, 2) := by
          unfold utf8Step
          rw [if_neg (by omega), if_neg (by omega), if_neg (by omega), if_pos (by omega)]
          dsimp only
          rw [if_pos (by constructor <;> constructor <;> omega)]
          rw [if_pos (by rw [hv]; exact ⟨h2, hsurr⟩), hv]
        rw [e]
        show utf8Decode ((224 + c / 4096) :: ((128 + c / 64 % 64) :: (128 + c % 64) :: rest)) = _
        rw [utf8Decode_cons, hs]
        simp
      · have e : utf8EncodeChar c =
            [240 + c / 262144, 128 + c / 4096 % 64, 128 + c / 64 % 64, 128 + c % 64] := by
          rw [utf8EncodeChar, if_neg (by omega), if_neg (by omega), if_neg (by omega)]
        have hb : c / 262144 < 5 := by omega
        have hv : (240 + c / 262144 - 240) * 262144 + (128 + c / 4096 % 64 - 128) * 4096 +
            (128 + c / 64 % 64 - 128) * 64 + (128 + c % 64 - 128) = c := by omega
        have hs : utf8Step (240 + c / 262144)
            ((128 + c / 4096 % 64) :: (128 + c / 64 % 64) :: (128 + c % 64) :: rest) =
            (c, 3) := by
          unfold utf8Step
          rw [if_neg (by omega), if_neg (by omega), if_neg (by omega), if_neg (by omega),
            if_pos (by omega)]
          dsimp only
          rw [if_pos (by refine ⟨⟨by omega, by omega⟩, ⟨by omega, by omega⟩, by omega, by omega⟩)]
          rw [if_pos (by rw [hv]; exact ⟨h3, hlt⟩), hv]
        rw [e]
        show utf8Decode ((240 + c / 262144) ::
          ((128 + c / 4096 % 64) :: (128 + c / 64 % 64) :: (128 + c % 64) :: rest)) = _
        rw [utf8Decode_cons, hs]
        simp

theorem utf8_roundtrip (s : JStr) (h : ∀ c ∈ s, ValidScalar c) :
    utf8Decode (utf8Encode s) = s := by
  induction s with
  | nil => simp [utf8Encode, utf8Decode]
  | cons c t ih =>
    have hc : ValidScalar c := h c (by simp)
    rw [utf8Encode, List.flatMap_cons]
    rw [utf8Decode_encodeChar c hc]
    have ih2 := ih (fun x hx => h x (by simp [hx]))
    rw [utf8Encode] at ih2
    rw [ih2]

theorem utf8Encode_inj {s s' : JStr} (h : ∀ c ∈ s, ValidScalar c)
    (h' : ∀ c ∈ s', ValidScalar c) (heq : utf8Encode s = utf8Encode s') : s = s' := by
  have h1 := utf8_roundtrip s h
  rw [heq, utf8_roundtrip s' h'] at h1
  exact h1.symm

/-! ### Canonical JSON encodings

The source signs `JSON.stringify({messageId, chatId, senderId, timestamp})`
(in `delete-message.ts`) and verifies `JSON.stringify({messageId, senderId})`
(in `chat-room.tsx`).  `JSON.stringify` escapes `"` (34), `\` (92) and
control characters inside string values and renders the field names and
punctuation literally; these fixed shapes are implemented below. -/

/-- Hexadecimal digit as a code point (lowercase, as `JSON.stringify` emits). -/
def hexDigit (n : Nat) : Nat := if n < 10 then 48 + n else 87 + n

/-- Escaping of one string character by `JSON.stringify`. -/
def jsonEscapeChar (c : Nat) : List Nat :=
  if c = 34 then [92, 34]
  else if c = 92 then [92, 92]
  else if c = 8 then [92, 98]
  else if c = 9 then [92, 116]
  else if c = 10 then [92, 110]
  else if c = 12 then [92, 102]
  else if c = 13 then [92, 114]
  else if c < 32 then [92, 117, 48, 48, 48 + c / 16, hexDigit (c % 16)]
  else [c]

/-- Escaping of a string value by `JSON.stringify`. -/
def jsonEscape (s : JStr) : JStr := s.flatMap jsonEscapeChar

/-- A character that `JSON.stringify` passes through unescaped (and that is
a valid Unicode scalar): every character of the id strings the application
generates (UUIDs) is plain. -/
def PlainChar (c : Nat) : Prop := 32 ≤ c ∧ c ≠ 34 ∧ c ≠ 92 ∧ ValidScalar c

instance (c : Nat) : Decidable (PlainChar c) := by
  unfold PlainChar; infer_instance

/-- A string of plain characters. -/
def PlainStr (s : JStr) : Prop := ∀ c ∈ s, PlainChar c

instance (s : JStr) : Decidable (PlainStr s) := by
  unfold PlainStr; infer_instance

theorem jsonEscape_plain {s : JStr} (h : PlainStr s) : jsonEscape s = s := by
  induction s with
  | nil => rfl
  | cons c t ih =>
    obtain ⟨h1, h2, h3, _⟩ := h c (by simp)
    have e : jsonEscapeChar c = [c] := by
      unfold jsonEscapeChar
      rw [if_neg h2, if_neg h3, if_neg (by omega), if_neg (by omega), if_neg (by omega),
        if_neg (by omega), if_neg (by omega), if_neg (by omega)]
    rw [jsonEscape, List.flatMap_cons, e]
    have ih2 := ih (fun x hx => h x (by simp [hx]))
    rw [jsonEscape] at ih2
    rw [ih2]
    rfl

/-- Canonical bytes signed by `createDeleteEvent` / reconstructed by
`verifyDeleteEvent`:
`JSON.stringify({ messageId, chatId, senderId, timestamp })`. -/
def jsonDelete4 (messageId chatId senderId : JStr) (timestamp : Nat) : JStr :=
  strCodes "\x7b\"messageId\":\"" ++ jsonEscape messageId ++
    strCodes "\",\"chatId\":\"" ++ jsonEscape chatId ++
    strCodes "\",\"senderId\":\"" ++ jsonEscape senderId ++
    strCodes "\",\"timestamp\":" ++ toDec timestamp ++ strCodes "\x7d"

/-- Canonical bytes used by the chat-room delete path:
`JSON.stringify({ messageId, senderId })`. -/
def jsonDelete2 (messageId senderId : JStr) : JStr :=
  strCodes "\x7b\"messageId\":\"" ++ jsonEscape messageId ++
    strCodes "\",\"senderId\":\"" ++ jsonEscape senderId ++ strCodes "\"\x7d"

theorem jsonDelete4_norm (m c s : JStr) (t : Nat)
    (hm : PlainStr m) (hc : PlainStr c) (hs : PlainStr s) :
    jsonDelete4 m c s t =
      strCodes "\x7b\"messageId\":\"" ++
        (m ++ 34 :: (strCodes ",\"chatId\":\"" ++
          (c ++ 34 :: (strCodes ",\"senderId\":\"" ++
            (s ++ 34 :: (strCodes ",\"timestamp\":" ++ (toDec t ++ [125]))))))) := by
  have e1 : strCodes "\",\"chatId\":\"" = 34 :: strCodes ",\"chatId\":\"" := by decide
  have e2 : strCodes "\",\"senderId\":\"" = 34 :: strCodes ",\"senderId\":\"" := by decide
  have e3 : strCodes "\",\"timestamp\":" = 34 :: strCodes ",\"timestamp\":" := by decide
  have e4 : strCodes "\x7d" = [125] := by decide
  rw [jsonDelete4, jsonEscape_plain hm, jsonEscape_plain hc, jsonEscape_plain hs,
    e1, e2, e3, e4]
  simp [List.append_assoc]

theorem jsonDelete4_inj {m c s m2 c2 s2 : JStr} {t t2 : Nat}
    (hm : PlainStr m) (hc : PlainStr c) (hs : PlainStr s)
    (hm2 : PlainStr m2) (hc2 : PlainStr c2) (hs2 : PlainStr s2)
    (heq : jsonDelete4 m c s t = jsonDelete4 m2 c2 s2 t2) :
    m = m2 ∧ c = c2 ∧ s = s2 ∧ t = t2 := by
  rw [jsonDelete4_norm m c s t hm hc hs, jsonDelete4_norm m2 c2 s2 t2 hm2 hc2 hs2] at heq
  have step1 := List.append_cancel_left heq
  have hq : ∀ (l : JStr), PlainStr l → ∀ x ∈ l, x ≠ 34 := by
    intro l hl x hx
    exact (hl x hx).2.1
  obtain ⟨hmm, step2⟩ := sep_append_cancel (hq m hm) (hq m2 hm2) step1
  have step3 := List.append_cancel_left step2
  obtain ⟨hcc, step4⟩ := sep_append_cancel (hq c hc) (hq c2 hc2) step3
  have step5 := List.append_cancel_left step4
  obtain ⟨hss, step6⟩ := sep_append_cancel (hq s hs) (hq s2 hs2) step5
  have step7 := List.append_cancel_left step6
  have hdig : ∀ (n : Nat), ∀ x ∈ toDec n, x ≠ 125 := by
    intro n x hx
    have := toDec_digits n x hx
    omega
  have step8 : toDec t ++ 125 :: ([] : List Nat) = toDec t2 ++ 125 :: ([] : List Nat) := by
    simpa using step7
  obtain ⟨htt, _⟩ := sep_append_cancel (hdig t) (hdig t2) step8
  exact ⟨hmm, hcc, hss, toDec_inj htt⟩

/-! ### Message cipher (`encryptMessage` / `decryptMessage`, part_004)

The AES-GCM primitive behind `crypto.subtle.encrypt`/`decrypt` is a
parameter (`SubtleAead`); the 12 random bytes `crypto.getRandomValues`
draws inside `encryptMessage` are the explicit `ivBytes` argument. -/

/-- An AEAD as exposed by `crypto.subtle` for AES-GCM: `encrypt key iv data`
returns the ciphertext-plus-tag bytes, `decrypt` returns `none` where the
platform call throws `OperationError` (authentication failure). -/
structure SubtleAead (Key : Type) where
  encrypt : Key → List Nat → List Nat → List Nat
  decrypt : Key → List Nat → List Nat → Option (List Nat)

/-- Return value of `encryptMessage`: base64 ciphertext and iv strings. -/
structure EncResult where
  ciphertext : JStr
  iv : JStr
deriving DecidableEq

/-- Embedding of `encryptMessage` (part_004 lines 38–49): UTF-8 encode the
plaintext, AES-GCM encrypt with a fresh 12-byte iv, base64 both outputs. -/
def encryptMessage {Key : Type} (A : SubtleAead Key) (plaintext : JStr) (key : Key)
    (ivBytes : List Nat) : EncResult :=
  let data := utf8Encode plaintext
  let encrypted := A.encrypt key ivBytes data
  { ciphertext := base64Encode encrypted, iv := base64Encode ivBytes }

/-- Embedding of `decryptMessage` (part_004 lines 52–60): base64-decode the
ciphertext and iv, AES-GCM decrypt, UTF-8 decode; `none` models a thrown
exception (bad base64 or authentication failure). -/
def decryptMessage {Key : Type} (A : SubtleAead Key) (ciphertext iv : JStr)
    (key : Key) : Option JStr :=
  match base64Decode ciphertext with
  | none => none
  | some encryptedData =>
    match base64Decode iv with
    | none => none
    | some ivData =>
      match A.decrypt key ivData encryptedData with
      | none => none
      | some decrypted => some (utf8Decode decrypted)

/-! ### Signatures (`signData` / `verifySignature` / `importPublicKey`) -/

/-- The ECDSA P-256 / SHA-256 primitives behind `crypto.subtle`: signing
maps data bytes to signature bytes, verification checks signature bytes
against data bytes under a public key, and `importSpki` parses an SPKI
byte string (`none` models the exception on malformed input). -/
structure SubtleSig (PrivK PubK : Type) where
  sign : PrivK → List Nat → List Nat
  verify : PubK → List Nat → List Nat → Bool
  importSpki : List Nat → Option PubK

/-- Embedding of `signData` (part_004 lines 63–70): UTF-8 encode, sign,
base64 the signature bytes. -/
def signData {PrivK PubK : Type} (S : SubtleSig PrivK PubK) (data : JStr)
    (privateKey : PrivK) : JStr :=
  base64Encode (S.sign privateKey (utf8Encode data))

/-- Embedding of `verifySignature` (part_004 lines 73–79): base64-decode the
signature (`none` models the `atob` exception), UTF-8 encode the data,
verify. -/
def verifySignature {PrivK PubK : Type} (S : SubtleSig PrivK PubK) (data : JStr)
    (signature : JStr) (publicKey : PubK) : Option Bool :=
  match base64Decode signature with
  | none => none
  | some signatureBuffer => some (S.verify publicKey signatureBuffer (utf8Encode data))

/-- Embedding of `importPublicKey` (part_004 lines 82–86): base64-decode
then parse SPKI; `none` models either exception. -/
def importPublicKey {PrivK PubK : Type} (S : SubtleSig PrivK PubK)
    (base64Key : JStr) : Option PubK :=
  match base64Decode base64Key with
  | none => none
  | some keyData => S.importSpki keyData

/-! ### Signed deletion protocol, client side (src/lib/delete-message.ts) -/

/-- The `DeleteControlMessage` record. -/
structure DeleteControlMessage where
  messageId : JStr
  chatId : JStr
  senderId : JStr
  signature : JStr
  timestamp : Nat
deriving DecidableEq

/-- Embedding of `createDeleteEvent` (delete-message.ts lines 16–42); the
`Date.now()` call is the explicit `timestamp` argument. -/
def createDeleteEvent {PrivK PubK : Type} (S : SubtleSig PrivK PubK)
    (messageId chatId senderId : JStr) (timestamp : Nat)
    (signingPrivateKey : PrivK) : DeleteControlMessage :=
  let dataToSign := jsonDelete4 messageId chatId senderId timestamp
  let signature := signData S dataToSign signingPrivateKey
  { messageId := messageId, chatId := chatId, senderId := senderId,
    signature := signature, timestamp := timestamp }

/-- Embedding of `verifyDeleteEvent` (delete-message.ts lines 45–67): the
try/catch around key import and verification turns both failure modes
(`none`) into `false`, so the function is total into `Bool`. -/
def verifyDeleteEvent {PrivK PubK : Type} (S : SubtleSig PrivK PubK)
    (deleteEvent : DeleteControlMessage) (senderPublicKeyBase64 : JStr) : Bool :=
  match importPublicKey S senderPublicKeyBase64 with
  | none => false
  | some publicKey =>
    let dataToVerify := jsonDelete4 deleteEvent.messageId deleteEvent.chatId
      deleteEvent.senderId deleteEvent.timestamp
    match verifySignature S dataToVerify deleteEvent.signature publicKey with
    | none => false
    | some b => b

/-- JavaScript truthiness of a nullable string (both `null`/`undefined` and
the empty string are falsy). -/
def jsTruthyStr : Option JStr → Bool
  | none => false
  | some s => decide (s ≠ [])

/-- A delete event joined with the sender public key, as returned by the
server sync route (`DeleteEventWithKey`). -/
structure DeleteEventWithKey where
  messageId : JStr
  chatId : JStr
  senderId : JStr
  signature : JStr
  timestamp : Nat
  senderPublicKey : Option JStr

/-- Embedding of `processDeleteEvents` (delete-message.ts lines 75–118).
The `Map` of local messages is an association list keyed by message id;
the result carries the returned `deletedIds`, the mutated store, and the
ids passed to the `onDelete` callback, in call order. -/
def processDeleteEvents {PrivK PubK V : Type} (S : SubtleSig PrivK PubK) :
    List DeleteEventWithKey → List (JStr × V) → List JStr × List (JStr × V) × List JStr
  | [], store => ([], store, [])
  | e :: rest, store =>
    if ¬ jsTruthyStr e.senderPublicKey then processDeleteEvents S rest store
    else if ¬ verifyDeleteEvent S
        { messageId := e.messageId, chatId := e.chatId, senderId := e.senderId,
          signature := e.signature, timestamp := e.timestamp }
        (e.senderPublicKey.getD []) then
      processDeleteEvents S rest store
    else if store.any (fun kv => kv.1 == e.messageId) then
      let store2 := store.filter (fun kv => ¬ kv.1 == e.messageId)
      let r := processDeleteEvents S rest store2
      (e.messageId :: r.1, r.2.1, e.messageId :: r.2.2)
    else processDeleteEvents S rest store

/-- Shape of the delete events the chat room receives from `/api/messages`. -/
structure ChatDeleteEvent where
  messageId : JStr
  senderId : JStr
  signature : JStr
  senderPublicKey : Option JStr

/-- Embedding of the `processDeletes` loop in `chat-room.tsx` (lines
100–133): threads the `deletedMessageIds` set (as a list); a verification
exception (`none`) is caught and skips the event; an event with no sender
public key is added unconditionally. -/
def processDeletes {PrivK PubK : Type} (S : SubtleSig PrivK PubK) :
    List ChatDeleteEvent → List JStr → List JStr
  | [], deleted => deleted
  | e :: rest, deleted =>
    if e.messageId ∈ deleted then processDeletes S rest deleted
    else if jsTruthyStr e.senderPublicKey then
      match importPublicKey S (e.senderPublicKey.getD []) with
      | none => processDeletes S rest deleted
      | some pubKey =>
        match verifySignature S (jsonDelete2 e.messageId e.senderId) e.signature pubKey with
        | none => processDeletes S rest deleted
        | some isValid =>
          if isValid then processDeletes S rest (deleted ++ [e.messageId])
          else processDeletes S rest deleted
    else processDeletes S rest (deleted ++ [e.messageId])

/-! ### Signaling relay (GET/POST of src/unnamed/part_012)

The `SignalEvent` table is a list of rows; the list order models the
storage order, which for the routes below coincides with `createdAt`
ascending (`orderBy: { createdAt: "asc" }`) whenever the posts that built
the table carried nondecreasing times — stated as a `Pairwise` hypothesis
where a theorem concludes something about order. -/

/-- JavaScript truthiness of a nullable Lean string. -/
def jsTruthyS : Option String → Bool
  | none => false
  | some s => decide (s ≠ "")

/-- One row of the `SignalEvent` table. -/
structure SignalEvent where
  sid : Nat
  chatId : String
  fromUserId : String
  toUserId : Option String
  type : String
  payload : String
  createdAt : Nat
  expiresAt : Nat
  consumed : Bool
deriving DecidableEq

/-- State touched by the signal routes: the `ChatMember` table (as
(chatId, userId) pairs) and the `SignalEvent` table. -/
structure SignalDb where
  members : List (String × String)
  events : List SignalEvent
deriving DecidableEq

/-- Where-clause of the `findMany` in GET /api/signal: unconsumed,
unexpired rows of this chat addressed to this user. -/
def signalMatches (chatId userId : String) (now : Nat) (s : SignalEvent) : Prop :=
  s.chatId = chatId ∧ s.toUserId = some userId ∧ s.consumed = false ∧ now < s.expiresAt

instance (chatId userId : String) (now : Nat) (s : SignalEvent) :
    Decidable (signalMatches chatId userId now s) := by
  unfold signalMatches; infer_instance

inductive SignalGetRes
  | unauthorized
  | badRequest
  | accessDenied
  | ok (signals : List SignalEvent)
deriving DecidableEq

/-- Embedding of GET /api/signal (part_012 lines 8–83).  `userId` is the
authenticated principal (`none`: no token and no session); `now` is the
time of the two `new Date()` evaluations.  The response projects each row
to (type, payload, fromUserId, toUserId, chatId); the full rows are
returned here and the projection is immaterial to the claims. -/
def signalGET (userId : Option String) (chatId : Option String) (now : Nat)
    (db : SignalDb) : SignalGetRes × SignalDb :=
  match userId with
  | none => (.unauthorized, db)
  | some uid =>
    match chatId with
    | none => (.badRequest, db)
    | some cid =>
      if (cid, uid) ∉ db.members then (.accessDenied, db)
      else
        let signals := db.events.filter (fun s => decide (signalMatches cid uid now s))
        let events2 :=
          if signals.length > 0 then
            db.events.map (fun s =>
              if s.sid ∈ signals.map SignalEvent.sid then { s with consumed := true } else s)
          else db.events
        (.ok signals, { db with events := events2 })

/-- Request body of POST /api/signal. -/
structure SignalPostBody where
  type : Option String
  payload : Option String
  toUserId : Option String
  chatId : Option String

inductive SignalPostRes
  | unauthorized
  | badRequestMissing
  | badRequestType
  | badRequestTarget
  | accessDenied
  | ok (signalId : Nat)
deriving DecidableEq

/-- Signal TTL: 30 seconds (part_012 line 6). -/
def SIGNAL_TTL_MS : Nat := 30 * 1000

/-- Embedding of POST /api/signal (part_012 lines 85–172): validation,
membership checks, row creation with `toUserId || null` and a 30-second
expiry, then lazy cleanup (`deleteMany` of expired rows). -/
def signalPOST (userId : Option String) (body : SignalPostBody) (now : Nat)
    (newSid : Nat) (db : SignalDb) : SignalPostRes × SignalDb :=
  match userId with
  | none => (.unauthorized, db)
  | some uid =>
    if ¬ (jsTruthyS body.type ∧ jsTruthyS body.payload ∧ jsTruthyS body.chatId) then
      (.badRequestMissing, db)
    else
      let ty := body.type.getD ""
      let cid := body.chatId.getD ""
      let pl := body.payload.getD ""
      if ty ∉ ["offer", "answer", "ice-candidate"] then (.badRequestType, db)
      else if (cid, uid) ∉ db.members then (.accessDenied, db)
      else
        let createAndClean := fun (toU : Option String) =>
          let ev : SignalEvent :=
            { sid := newSid, chatId := cid, fromUserId := uid, toUserId := toU,
              type := ty, payload := pl, createdAt := now,
              expiresAt := now + SIGNAL_TTL_MS, consumed := false }
          let events2 := (db.events ++ [ev]).filter (fun s => decide (¬ s.expiresAt < now))
          (SignalPostRes.ok newSid, { db with events := events2 })
        if jsTruthyS body.toUserId then
          if (cid, body.toUserId.getD "") ∉ db.members then (.badRequestTarget, db)
          else createAndClean body.toUserId
        else createAndClean none

/-! ### Delete routes (src/app/api/delete/route.ts) and messages route
(src/unnamed/part_010) -/

/-- One row of the `Message` table. -/
structure ChatMessage where
  mid : String
  chatId : String
  senderId : String
  ciphertext : String
  iv : String
  contentType : String
  createdAt : Nat
deriving DecidableEq

/-- One row of the `DeleteEvent` table.  `delivered` is a single boolean
column of the row (001-initial-migration.sql line 129). -/
structure DeleteEventRec where
  deid : Nat
  messageId : String
  chatId : String
  senderId : String
  signature : String
  timestamp : Nat
  delivered : Bool
deriving DecidableEq

/-- State touched by the delete and messages routes: memberships, the
`Message` table (in `createdAt` storage order), the `DeleteEvent` table,
and the `User.publicKey` column. -/
structure ChatDb where
  members : List (String × String)
  messages : List ChatMessage
  deleteEvents : List DeleteEventRec
  userKeys : List (String × Option String)
deriving DecidableEq

inductive DeletePostRes
  | unauthorized
  | badRequest
  | accessDenied
  | notFound
  | forbiddenNotOwn
  | ok (deid : Nat)
deriving DecidableEq

/-- Embedding of POST /api/delete (route.ts lines 14–92): field checks,
chat membership, target lookup, sender-equality check; on success the
signed request is stored as-is (no signature verification happens here)
and the message is tombstoned (ciphertext and iv cleared, contentType
flipped to "deleted"). -/
def deletePOST (sessionUser : Option String) (messageId chatId signature : Option String)
    (timestamp : Option Nat) (now : Nat) (newDeid : Nat) (db : ChatDb) :
    DeletePostRes × ChatDb :=
  match sessionUser with
  | none => (.unauthorized, db)
  | some uid =>
    if ¬ (jsTruthyS messageId ∧ jsTruthyS chatId ∧ jsTruthyS signature) then
      (.badRequest, db)
    else
      let mId := messageId.getD ""
      let cId := chatId.getD ""
      let sig := signature.getD ""
      if (cId, uid) ∉ db.members then (.accessDenied, db)
      else
        match db.messages.find? (fun m => m.mid == mId) with
        | none => (.notFound, db)
        | some message =>
          if message.senderId ≠ uid then (.forbiddenNotOwn, db)
          else
            let ts : Nat := match timestamp with
              | some t => if t ≠ 0 then t else now
              | none => now
            let ev : DeleteEventRec :=
              { deid := newDeid, messageId := mId, chatId := cId, senderId := uid,
                signature := sig, timestamp := ts, delivered := false }
            let messages2 := db.messages.map (fun m =>
              if m.mid = mId then
                { m with ciphertext := "", iv := "", contentType := "deleted" }
              else m)
            (.ok newDeid,
              { db with deleteEvents := db.deleteEvents ++ [ev], messages := messages2 })

inductive DeleteGetRes
  | unauthorized
  | badRequest
  | accessDenied
  | ok (events : List (DeleteEventRec × Option String))
deriving DecidableEq

/-- Embedding of GET /api/delete (route.ts lines 95–157): all delete
events of the chat, optionally only those after `since`, each joined with
the sender's published public key.  The `delivered` flag is not part of
the filter, and nothing is written. -/
def deleteGET (sessionUser : Option String) (chatId : Option String)
    (since : Option Nat) (db : ChatDb) : DeleteGetRes :=
  match sessionUser with
  | none => .unauthorized
  | some uid =>
    match chatId with
    | none => .badRequest
    | some cid =>
      if (cid, uid) ∉ db.members then .accessDenied
      else
        let evs := db.deleteEvents.filter (fun e =>
          e.chatId == cid &&
            (match since with
             | some ts => decide (ts < e.timestamp)
             | none => true))
        .ok (evs.map (fun e => (e, (db.userKeys.lookup e.senderId).join)))

inductive MessagesGetRes
  | unauthorized
  | badRequest
  | accessDenied
  | ok (messages : List ChatMessage) (deleteEvents : List DeleteEventRec)
      (nextCursor : Option String)
deriving DecidableEq

/-- Embedding of GET /api/messages (part_010 lines 5–87): a page of the
chat's messages (newest first, then reversed for the response, with cursor
pagination), plus every undelivered delete event of the chat, which the
same request then marks delivered (`updateMany`). -/
def messagesGET (sessionUser : Option String) (chatId : Option String)
    (cursor : Option String) (limit : Nat) (db : ChatDb) : MessagesGetRes × ChatDb :=
  match sessionUser with
  | none => (.unauthorized, db)
  | some uid =>
    match chatId with
    | none => (.badRequest, db)
    | some cid =>
      if (cid, uid) ∉ db.members then (.accessDenied, db)
      else
        let desc := (db.messages.filter (fun m => m.chatId == cid)).reverse
        let afterCursor := match cursor with
          | some cu => (desc.dropWhile (fun (m : ChatMessage) => m.mid != cu)).drop 1
          | none => desc
        let page := afterCursor.take limit
        let deleteEvs := db.deleteEvents.filter (fun e => e.chatId == cid && !e.delivered)
        let dbEvents2 :=
          if deleteEvs.length > 0 then
            db.deleteEvents.map (fun e =>
              if e.deid ∈ deleteEvs.map DeleteEventRec.deid then { e with delivered := true }
              else e)
          else db.deleteEvents
        let pageRev := page.reverse
        let nextCursor :=
          if page.length = limit then pageRev.getLast?.map ChatMessage.mid else none
        (.ok pageRev deleteEvs nextCursor, { db with deleteEvents := dbEvents2 })

/-! ### Key lifecycle (useCrypto in part_004, handleReset in part_000)

Key handles (`CryptoKey`) are abstract numeric identifiers; the IndexedDB
object store holds at most the single "primary" record.  Storage failures
are injected through explicit flags (`IDBRequest.onerror` paths). -/

/-- The stored "primary" record (`StoredKeyPair`). -/
structure StoredKeyPair where
  encryptionKey : Nat
  signingPub : Nat
  signingPriv : Nat
  exportedPublicKey : JStr
deriving DecidableEq

/-- Embedding of `clearKeys` (part_004 lines 203–218): clears the store;
a failing `store.clear()` rejects and changes nothing. -/
def clearKeys (st : Option StoredKeyPair) (clearFails : Bool) :
    Except Unit (Option StoredKeyPair) :=
  if clearFails then .error () else .ok none

/-- What `initializeKeys` leaves behind: its return value (the exported
public key, or `null` after the caught failure), the store content, and
the `isReady` flag. -/
structure InitResult where
  returned : Option JStr
  store : Option StoredKeyPair
  isReady : Bool
deriving DecidableEq

/-- Embedding of `initializeKeys` (part_004 lines 158–200): load the
stored keys and return them unchanged if present; otherwise generate fresh
keys (`newEnc`, `newSignPub`, `newSignPriv`, with `spkiExport` standing
for `exportKey("spki", ·)`), save, and return the exported public key.
Any thrown error (modelled: the save failing) is caught: it logs, sets
`isReady` false and returns `null` — nothing is rolled back. -/
def initializeKeys (st : Option StoredKeyPair) (newEnc newSignPub newSignPriv : Nat)
    (spkiExport : Nat → List Nat) (saveFails : Bool) : InitResult :=
  match st with
  | some stored => { returned := some stored.exportedPublicKey, store := st, isReady := true }
  | none =>
    let exportedPubKey := base64Encode (spkiExport newSignPub)
    if saveFails then { returned := none, store := none, isReady := false }
    else
      { returned := some exportedPubKey,
        store := some
          ({ encryptionKey := newEnc, signingPub := newSignPub,
             signingPriv := newSignPriv,
             exportedPublicKey := exportedPubKey } : StoredKeyPair),
        isReady := true }

/-- Embedding of `handleReset` (part_000 lines 45–48):
`await clearKeys(); await initializeKeys()` — a rejection from `clearKeys`
propagates (initializeKeys is then never reached). -/
def handleReset (st : Option StoredKeyPair) (clearFails saveFails : Bool)
    (newEnc newSignPub newSignPriv : Nat) (spkiExport : Nat → List Nat) :
    Except Unit InitResult :=
  match clearKeys st clearFails with
  | .error e => .error e
  | .ok st1 => .ok (initializeKeys st1 newEnc newSignPub newSignPriv spkiExport saveFails)

/-! ### Concrete scheme instances

Instances of the abstract `crypto.subtle` primitives satisfying the
correctness laws the theorems assume, used to discharge those hypotheses
at concrete inputs. -/

/-- A concrete AEAD satisfying the laws assumed of AES-GCM in the theorems
below: ciphertext is plaintext with the nonce appended. -/
def toyAead : SubtleAead Nat :=
  { encrypt := fun _ iv d => d ++ iv,
    decrypt := fun _ iv c => some (c.take (c.length - iv.length)) }

theorem toyAead_dec : ∀ (k : Nat) (iv d : List Nat),
    toyAead.decrypt k iv (toyAead.encrypt k iv d) = some d := by
  intro k iv d
  simp only [toyAead]
  have h : (d ++ iv).length - iv.length = d.length := by
    simp [List.length_append]
  rw [h, List.take_left]

theorem toyAead_bytes : ∀ (k : Nat) (iv d : List Nat), (∀ b ∈ iv, b < 256) →
    (∀ b ∈ d, b < 256) → ∀ b ∈ toyAead.encrypt k iv d, b < 256 := by
  intro k iv d hiv hd b hb
  simp only [toyAead, List.mem_append] at hb
  rcases hb with h | h
  · exact hd b h
  · exact hiv b h

theorem toyAead_iv_inj : ∀ (k : Nat) (iv1 iv2 d : List Nat), iv1 ≠ iv2 →
    toyAead.encrypt k iv1 d ≠ toyAead.encrypt k iv2 d := by
  intro k iv1 iv2 d hne heq
  exact hne (List.append_cancel_left heq)

/-- Signature bytes of a concrete strongly-unforgeable scheme: an
injective byte encoding of the signer and the signed data (digits and the
separators 59, 44). -/
def toySigBytes (sk : Nat) (d : List Nat) : List Nat :=
  toDec sk ++ [59] ++ d.flatMap (fun n => toDec n ++ [44])

/-- A concrete signature scheme satisfying the laws assumed of ECDSA in
the theorems below; key pairs are identified by a number serving as both
handles, and SPKI blobs are single-byte. -/
def toySig : SubtleSig Nat Nat :=
  { sign := toySigBytes,
    verify := fun pk sig d => decide (sig = toySigBytes pk d),
    importSpki := fun b => match b with | [n] => some n | _ => none }

theorem flatMapDec_inj : ∀ (d d2 : List Nat),
    d.flatMap (fun n => toDec n ++ [44]) = d2.flatMap (fun n => toDec n ++ [44]) → d = d2 := by
  intro d
  induction d with
  | nil =>
    intro d2 h
    cases d2 with
    | nil => rfl
    | cons n2 t2 =>
      rw [List.flatMap_nil, List.flatMap_cons] at h
      exfalso
      have := congrArg List.length h
      simp [List.length_append] at this
      omega
  | cons n t ih =>
    intro d2 h
    cases d2 with
    | nil =>
      rw [List.flatMap_cons, List.flatMap_nil] at h
      exfalso
      have := congrArg List.length h
      simp [List.length_append] at this
    | cons n2 t2 =>
      rw [List.flatMap_cons, List.flatMap_cons] at h
      have h2 : toDec n ++ 44 :: t.flatMap (fun n => toDec n ++ [44]) =
          toDec n2 ++ 44 :: t2.flatMap (fun n => toDec n ++ [44]) := by
        simpa [List.append_assoc] using h
      have hd1 : ∀ x ∈ toDec n, x ≠ 44 := fun x hx => by
        have := toDec_digits n x hx; omega
      have hd2 : ∀ x ∈ toDec n2, x ≠ 44 := fun x hx => by
        have := toDec_digits n2 x hx; omega
      obtain ⟨he, ht⟩ := sep_append_cancel hd1 hd2 h2
      rw [toDec_inj he, ih t2 ht]

theorem toySigBytes_inj {a a2 : Nat} {d d2 : List Nat}
    (h : toySigBytes a d = toySigBytes a2 d2) : a = a2 ∧ d = d2 := by
  unfold toySigBytes at h
  have h2 : toDec a ++ 59 :: d.flatMap (fun n => toDec n ++ [44]) =
      toDec a2 ++ 59 :: d2.flatMap (fun n => toDec n ++ [44]) := by
    simpa [List.append_assoc] using h
  have hd1 : ∀ x ∈ toDec a, x ≠ 59 := fun x hx => by
    have := toDec_digits a x hx; omega
  have hd2 : ∀ x ∈ toDec a2, x ≠ 59 := fun x hx => by
    have := toDec_digits a2 x hx; omega
  obtain ⟨he, ht⟩ := sep_append_cancel hd1 hd2 h2
  exact ⟨toDec_inj he, flatMapDec_inj _ _ ht⟩

theorem toySig_correct (sk : Nat) : ∀ d, toySig.verify sk (toySig.sign sk d) d = true := by
  intro d
  simp [toySig]

theorem toySig_tamper (sk : Nat) :
    ∀ d d2, d ≠ d2 → toySig.verify sk (toySig.sign sk d) d2 = false := by
  intro d d2 hne
  simp only [toySig, decide_eq_false_iff_not]
  intro h
  exact hne (toySigBytes_inj h).2

theorem toySig_strong (sk : Nat) :
    ∀ sig d, toySig.verify sk sig d = true → sig = toySig.sign sk d := by
  intro sig d h
  simpa [toySig] using h

theorem toySig_other (sk pk2 : Nat) (hne : pk2 ≠ sk) :
    ∀ d d2, toySig.verify pk2 (toySig.sign sk d) d2 = false := by
  intro d d2
  simp only [toySig, decide_eq_false_iff_not]
  intro h
  exact hne (toySigBytes_inj h).1.symm

theorem toySig_bytes (sk : Nat) : ∀ d, ∀ b ∈ toySig.sign sk d, b < 256 := by
  intro d b hb
  have hb2 : b ∈ toDec sk ++ [59] ++ d.flatMap (fun n => toDec n ++ [44]) := hb
  rcases List.mem_append.mp hb2 with h | h
  · rcases List.mem_append.mp h with h1 | h1
    · have := toDec_digits sk b h1; omega
    · simp at h1; omega
  · rcases List.mem_flatMap.mp h with ⟨n, _, h1⟩
    rcases List.mem_append.mp h1 with h2 | h2
    · have := toDec_digits n b h2; omega
    · simp at h2; omega

theorem jsonDelete4_valid {m c s : JStr} (t : Nat)
    (hm : PlainStr m) (hc : PlainStr c) (hs : PlainStr s) :
    ∀ ch ∈ jsonDelete4 m c s t, ValidScalar ch := by
  intro ch hch
  rw [jsonDelete4, jsonEscape_plain hm, jsonEscape_plain hc, jsonEscape_plain hs] at hch
  simp only [List.mem_append, or_assoc] at hch
  have hlit1 : ∀ x ∈ strCodes "\x7b\"messageId\":\"", ValidScalar x := by decide
  have hlit2 : ∀ x ∈ strCodes "\",\"chatId\":\"", ValidScalar x := by decide
  have hlit3 : ∀ x ∈ strCodes "\",\"senderId\":\"", ValidScalar x := by decide
  have hlit4 : ∀ x ∈ strCodes "\",\"timestamp\":", ValidScalar x := by decide
  have hlit5 : ∀ x ∈ strCodes "\x7d", ValidScalar x := by decide
  rcases hch with h | h | h | h | h | h | h | h | h
  · exact hlit1 ch h
  · exact (hm ch h).2.2.2
  · exact hlit2 ch h
  · exact (hc ch h).2.2.2
  · exact hlit3 ch h
  · exact (hs ch h).2.2.2
  · exact hlit4 ch h
  · have := toDec_digits t ch h
    exact ⟨by omega, by omega⟩
  · exact hlit5 ch h

/-! ### Claim theorems -/

/-- C1.  For every plaintext `P` (arbitrary length and Unicode content,
including the empty string), every key and every fresh byte draw for the
iv, `decryptMessage` applied to the ciphertext and iv that
`encryptMessage` produced, with the same key, returns exactly `P` — given
the AES-GCM correctness laws (decryption inverts encryption, ciphertext is
bytes). -/
theorem decryptMessage_encryptMessage_roundtrip {Key : Type} (A : SubtleAead Key)
    (hdec : ∀ k iv d, A.decrypt k iv (A.encrypt k iv d) = some d)
    (hct : ∀ k iv d, (∀ b ∈ iv, b < 256) → (∀ b ∈ d, b < 256) →
      ∀ b ∈ A.encrypt k iv d, b < 256)
    (P : JStr) (hP : ∀ c ∈ P, ValidScalar c)
    (key : Key) (ivBytes : List Nat) (hiv : ∀ b ∈ ivBytes, b < 256) :
    decryptMessage A (encryptMessage A P key ivBytes).ciphertext
      (encryptMessage A P key ivBytes).iv key = some P := by
  simp only [encryptMessage, decryptMessage]
  rw [base64_roundtrip _ (hct key ivBytes (utf8Encode P) hiv (utf8Encode_bytes hP))]
  rw [base64_roundtrip _ hiv]
  dsimp only
  rw [hdec]
  dsimp only
  rw [utf8_roundtrip P hP]

/-- Witness for C1 at a concrete Unicode plaintext, key and iv draw. -/
theorem decryptMessage_encryptMessage_roundtrip_witness :
    (∀ c ∈ ([104, 233, 128169] : JStr), ValidScalar c) ∧
    (∀ b ∈ ([0, 1, 2, 3, 4, 5, 6, 7, 8, 9, 10, 11] : List Nat), b < 256) ∧
    decryptMessage toyAead
      (encryptMessage toyAead [104, 233, 128169] 0
        [0, 1, 2, 3, 4, 5, 6, 7, 8, 9, 10, 11]).ciphertext
      (encryptMessage toyAead [104, 233, 128169] 0
        [0, 1, 2, 3, 4, 5, 6, 7, 8, 9, 10, 11]).iv 0 = some [104, 233, 128169] :=
  ⟨by decide, by decide,
    decryptMessage_encryptMessage_roundtrip toyAead toyAead_dec toyAead_bytes
      [104, 233, 128169] (by decide) 0
      [0, 1, 2, 3, 4, 5, 6, 7, 8, 9, 10, 11] (by decide)⟩

theorem base64Encode_length : ∀ (l : List Nat), l.length % 3 = 0 →
    (base64Encode l).length = l.length / 3 * 4
  | [], _ => rfl
  | [_], h => by simp at h
  | [_, _], h => by simp at h
  | a :: b :: c :: rest, h => by
    have hr : rest.length % 3 = 0 := by
      simp only [List.length_cons] at h
      omega
    have ih := base64Encode_length rest hr
    simp only [base64Encode, List.length_cons, ih]
    omega

/-- C9.  Under the AES-GCM distinct-nonce law (same key and plaintext,
different nonces give different ciphertexts), two calls of
`encryptMessage` whose internal 12-byte random draws differ return
different nonce fields and different ciphertext fields; the returned nonce
field is exactly the base64 of the fresh draw (16 characters for the
12-byte draw the source makes), so a caller cannot influence it. -/
theorem encryptMessage_fresh_nonce {Key : Type} (A : SubtleAead Key)
    (hinj : ∀ k iv1 iv2 d, iv1 ≠ iv2 → A.encrypt k iv1 d ≠ A.encrypt k iv2 d)
    (hct : ∀ k iv d, (∀ b ∈ iv, b < 256) → (∀ b ∈ d, b < 256) →
      ∀ b ∈ A.encrypt k iv d, b < 256)
    (P : JStr) (hP : ∀ c ∈ P, ValidScalar c) (key : Key) (iv1 iv2 : List Nat)
    (hb1 : ∀ b ∈ iv1, b < 256) (hb2 : ∀ b ∈ iv2, b < 256)
    (hl1 : iv1.length = 12) (hl2 : iv2.length = 12) (hne : iv1 ≠ iv2) :
    (encryptMessage A P key iv1).iv = base64Encode iv1 ∧
    (encryptMessage A P key iv1).iv.length = 16 ∧
    (encryptMessage A P key iv1).iv ≠ (encryptMessage A P key iv2).iv ∧
    (encryptMessage A P key iv1).ciphertext ≠ (encryptMessage A P key iv2).ciphertext := by
  refine ⟨rfl, ?_, ?_, ?_⟩
  · show (base64Encode iv1).length = 16
    rw [base64Encode_length iv1 (by omega)]
    omega
  · show base64Encode iv1 ≠ base64Encode iv2
    intro h
    exact hne (base64Encode_inj hb1 hb2 h)
  · show base64Encode (A.encrypt key iv1 (utf8Encode P)) ≠
      base64Encode (A.encrypt key iv2 (utf8Encode P))
    intro h
    exact hinj key iv1 iv2 (utf8Encode P) hne
      (base64Encode_inj
        (hct key iv1 (utf8Encode P) hb1 (utf8Encode_bytes hP))
        (hct key iv2 (utf8Encode P) hb2 (utf8Encode_bytes hP)) h)

/-- C6.  Under the ECDSA laws for the key pair (sk, pk) — honest
signatures verify, a signature over one byte string never verifies over a
different one, only sk's signature over the exact data verifies under pk,
sk's signatures never verify under a different pair's public key, and
signature bytes are bytes — `verifyDeleteEvent`:
(1) accepts a record built by `createDeleteEvent` checked with the pair's
public key and unchanged fields;
(2) rejects any change to a field of the signed tuple;
(3) rejects under a different key pair's imported public key;
(4) rejects any alteration of the signature bytes (anything that does not
decode to the honest signature bytes);
(5) returns `false`, never an exception, when the key fails to import. -/
theorem verifyDeleteEvent_soundness {PrivK PubK : Type} (S : SubtleSig PrivK PubK)
    (sk : PrivK) (pk : PubK) (pkStr : JStr)
    (himp : importPublicKey S pkStr = some pk)
    (hcorr : ∀ d, S.verify pk (S.sign sk d) d = true)
    (htamper : ∀ d d2, d ≠ d2 → S.verify pk (S.sign sk d) d2 = false)
    (hstrong : ∀ sig d, S.verify pk sig d = true → sig = S.sign sk d)
    (hsigbytes : ∀ d, ∀ b ∈ S.sign sk d, b < 256)
    (messageId chatId senderId : JStr) (timestamp : Nat)
    (hm : PlainStr messageId) (hc : PlainStr chatId) (hs : PlainStr senderId) :
    verifyDeleteEvent S (createDeleteEvent S messageId chatId senderId timestamp sk)
      pkStr = true ∧
    (∀ m2 c2 s2 t2, PlainStr m2 → PlainStr c2 → PlainStr s2 →
      ¬(m2 = messageId ∧ c2 = chatId ∧ s2 = senderId ∧ t2 = timestamp) →
      verifyDeleteEvent S
        { messageId := m2, chatId := c2, senderId := s2,
          signature := (createDeleteEvent S messageId chatId senderId timestamp sk).signature,
          timestamp := t2 } pkStr = false) ∧
    (∀ pkStr2 pk2, importPublicKey S pkStr2 = some pk2 →
      (∀ d d2, S.verify pk2 (S.sign sk d) d2 = false) →
      verifyDeleteEvent S (createDeleteEvent S messageId chatId senderId timestamp sk)
        pkStr2 = false) ∧
    (∀ sigStr2, base64Decode sigStr2 ≠
        some (S.sign sk (utf8Encode (jsonDelete4 messageId chatId senderId timestamp))) →
      verifyDeleteEvent S
        { createDeleteEvent S messageId chatId senderId timestamp sk with
          signature := sigStr2 } pkStr = false) ∧
    (∀ (r : DeleteControlMessage) (ks : JStr), importPublicKey S ks = none →
      verifyDeleteEvent S r ks = false) := by
  have hdata := jsonDelete4_valid (m := messageId) (c := chatId) (s := senderId)
    timestamp hm hc hs
  refine ⟨?_, ?_, ?_, ?_, ?_⟩
  · simp only [verifyDeleteEvent, createDeleteEvent, signData, verifySignature]
    rw [himp]
    rw [base64_roundtrip _ (hsigbytes _)]
    simp only [hcorr]
  · intro m2 c2 s2 t2 hm2 hc2 hs2 hne
    simp only [verifyDeleteEvent, createDeleteEvent, signData, verifySignature]
    rw [himp]
    rw [base64_roundtrip _ (hsigbytes _)]
    have hneq : utf8Encode (jsonDelete4 messageId chatId senderId timestamp) ≠
        utf8Encode (jsonDelete4 m2 c2 s2 t2) := by
      intro he
      have hj := utf8Encode_inj hdata (jsonDelete4_valid t2 hm2 hc2 hs2) he
      obtain ⟨e1, e2, e3, e4⟩ := jsonDelete4_inj hm hc hs hm2 hc2 hs2 hj
      exact hne ⟨e1.symm, e2.symm, e3.symm, e4.symm⟩
    simp only [htamper _ _ hneq]
  · intro pkStr2 pk2 himp2 hother
    simp only [verifyDeleteEvent, createDeleteEvent, signData, verifySignature]
    rw [himp2]
    rw [base64_roundtrip _ (hsigbytes _)]
    simp only [hother]
  · intro sigStr2 hne
    simp only [verifyDeleteEvent, createDeleteEvent, signData, verifySignature]
    rw [himp]
    rcases hdec : base64Decode sigStr2 with _ | bs
    · rfl
    · simp only
      rcases hv : S.verify pk bs (utf8Encode (jsonDelete4 messageId chatId senderId timestamp))
        with _ | _
      · rfl
      · exfalso
        apply hne
        rw [hdec, hstrong bs _ hv]
  · intro r ks himpn
    simp only [verifyDeleteEvent]
    rw [himpn]

/-- Witness for C6: the toy scheme at a concrete key pair, record and
tampered record. -/
theorem verifyDeleteEvent_soundness_witness :
    importPublicKey toySig [66, 119, 61, 61] = some 7 ∧
    verifyDeleteEvent toySig (createDeleteEvent toySig [109, 49] [99] [97] 5 7)
      [66, 119, 61, 61] = true ∧
    verifyDeleteEvent toySig
      { messageId := [109, 50], chatId := [99], senderId := [97],
        signature := (createDeleteEvent toySig [109, 49] [99] [97] 5 7).signature,
        timestamp := 5 } [66, 119, 61, 61] = false := by
  have main := verifyDeleteEvent_soundness toySig 7 7 [66, 119, 61, 61] (by decide)
    (toySig_correct 7) (toySig_tamper 7) (toySig_strong 7) (toySig_bytes 7)
    [109, 49] [99] [97] 5 (by decide) (by decide) (by decide)
  exact ⟨by decide, main.1,
    main.2.1 [109, 50] [99] [97] 5 (by decide) (by decide) (by decide) (by decide)⟩

/-- A scheme whose verification always succeeds once the base64 layers
decode (used to instantiate satisfiable signature-validity hypotheses at
concrete inputs). -/
def yesSig : SubtleSig Nat Nat :=
  { sign := fun _ _ => [], verify := fun _ _ _ => true, importSpki := fun _ => some 0 }

/-- C5.  Applying a valid delete record for an already-deleted message is
an idempotent no-op on both client paths: `processDeleteEvents` on a store
that no longer holds the message returns normally with no deleted ids, no
`onDelete` call and the store unchanged, and the chat-room `processDeletes`
loop leaves the deleted-id set unchanged when every event's message id is
already in it. -/
theorem processDeleteEvents_already_deleted_noop {PrivK PubK V : Type}
    (S : SubtleSig PrivK PubK) (e : DeleteEventWithKey) (store : List (JStr × V))
    (hkey : jsTruthyStr e.senderPublicKey = true)
    (hvalid : verifyDeleteEvent S
      { messageId := e.messageId, chatId := e.chatId, senderId := e.senderId,
        signature := e.signature, timestamp := e.timestamp }
      (e.senderPublicKey.getD []) = true)
    (hgone : ∀ kv ∈ store, kv.1 ≠ e.messageId) :
    processDeleteEvents S [e] store = ([], store, []) ∧
    (∀ (events : List ChatDeleteEvent) (deleted : List JStr),
      (∀ ev ∈ events, ev.messageId ∈ deleted) →
      processDeletes S events deleted = deleted) := by
  constructor
  · have hany : store.any (fun kv => kv.1 == e.messageId) = false := by
      rw [List.any_eq_false]
      intro kv hkv
      simpa using hgone kv hkv
    simp [processDeleteEvents, hkey, hvalid, hany]
  · intro events
    induction events with
    | nil => intro deleted _; rfl
    | cons ev rest ih =>
      intro deleted h
      have hmem : ev.messageId ∈ deleted := h ev (by simp)
      simp only [processDeletes, if_pos hmem]
      exact ih deleted (fun x hx => h x (by simp [hx]))

/-- Witness for C5: a concrete valid record whose message is absent from
the local store, and a chat-room pass over an already-deleted id. -/
theorem processDeleteEvents_already_deleted_noop_witness :
    jsTruthyStr (some [65, 65, 61, 61]) = true ∧
    processDeleteEvents yesSig
      [{ messageId := [109], chatId := [99], senderId := [97], signature := [],
         timestamp := 0, senderPublicKey := some [65, 65, 61, 61] }]
      ([([120], 0)] : List (JStr × Nat)) = ([], [([120], 0)], []) ∧
    processDeletes yesSig
      [{ messageId := [109], senderId := [97], signature := [],
         senderPublicKey := some [65, 65, 61, 61] }] [[109]] = [[109]] := by
  have main := processDeleteEvents_already_deleted_noop yesSig
    { messageId := [109], chatId := [99], senderId := [97], signature := [],
      timestamp := 0, senderPublicKey := some [65, 65, 61, 61] }
    ([([120], 0)] : List (JStr × Nat)) (by decide) (by decide) (by decide)
  exact ⟨by decide, main.1,
    main.2 [{ messageId := [109], senderId := [97], signature := [],
              senderPublicKey := some [65, 65, 61, 61] }] [[109]] (by decide)⟩

/-- C4.  A structurally valid delete request whose requester is
authenticated, a member of the chat, and correctly signed — but not the
target message's original sender — is rejected with the dedicated 403
("Can only delete your own messages") and the state is unchanged, even
though signature verification alone would pass. -/
theorem deletePOST_rejects_non_sender {PrivK PubK : Type} (S : SubtleSig PrivK PubK)
    (uid mId cId sigStr : String) (ts : Option Nat) (now newDeid : Nat)
    (db : ChatDb) (m : ChatMessage) (pkStr : JStr)
    (hm : mId ≠ "") (hc : cId ≠ "") (hsig : sigStr ≠ "")
    (hmem : (cId, uid) ∈ db.members)
    (hfind : db.messages.find? (fun mm => mm.mid == mId) = some m)
    (hnotown : m.senderId ≠ uid)
    (hsigned : verifyDeleteEvent S
      { messageId := strCodes mId, chatId := strCodes cId, senderId := strCodes uid,
        signature := strCodes sigStr, timestamp := ts.getD now } pkStr = true) :
    deletePOST (some uid) (some mId) (some cId) (some sigStr) ts now newDeid db =
      (.forbiddenNotOwn, db) := by
  simp only [deletePOST, jsTruthyS]
  rw [if_neg (by simp [hm, hc, hsig])]
  simp only [Option.getD_some]
  rw [if_neg (by simp [hmem])]
  rw [hfind]
  simp only
  rw [if_pos hnotown]

/-- Witness for C4: a correctly signed request from a chat member who did
not send the target message. -/
theorem deletePOST_rejects_non_sender_witness :
    ("alice" : String) ≠ "bob" ∧
    deletePOST (some "bob") (some "m1") (some "c") (some "AA==") (some 5) 10 1
      ({ members := [("c", "bob"), ("c", "alice")],
         messages := [{ mid := "m1", chatId := "c", senderId := "alice",
                        ciphertext := "CT", iv := "IV", contentType := "text",
                        createdAt := 0 }],
         deleteEvents := [], userKeys := [] } : ChatDb) =
      (.forbiddenNotOwn,
       { members := [("c", "bob"), ("c", "alice")],
         messages := [{ mid := "m1", chatId := "c", senderId := "alice",
                        ciphertext := "CT", iv := "IV", contentType := "text",
                        createdAt := 0 }],
         deleteEvents := [], userKeys := [] }) :=
  ⟨by decide,
    deletePOST_rejects_non_sender yesSig "bob" "m1" "c" "AA==" (some 5) 10 1
      ({ members := [("c", "bob"), ("c", "alice")],
         messages := [{ mid := "m1", chatId := "c", senderId := "alice",
                        ciphertext := "CT", iv := "IV", contentType := "text",
                        createdAt := 0 }],
         deleteEvents := [], userKeys := [] } : ChatDb)
      ({ mid := "m1", chatId := "c", senderId := "alice", ciphertext := "CT",
         iv := "IV", contentType := "text", createdAt := 0 } : ChatMessage)
      (strCodes "AA==") (by decide) (by decide) (by decide) (by decide)
      (by decide) (by decide) (by decide)⟩

/-- A one-message store: alice is the chat member and the sender of
message m1, and her published signing key is the toy-scheme key 7. -/
def sampleDb : ChatDb :=
  { members := [("c", "alice")],
    messages := [{ mid := "m1", chatId := "c", senderId := "alice",
                   ciphertext := "CT", iv := "IV", contentType := "text",
                   createdAt := 0 }],
    deleteEvents := [],
    userKeys := [("alice", some "Bw==")] }

/-- Counterexample to C3 as stated: a delete request whose signature
("####") verifies under no key — `verifyDeleteEvent` rejects it against
the requester's own published key — is nonetheless accepted for storage
and the target message tombstoned, because the store route checks only
field presence, membership and sender equality, never the signature. -/
theorem deletePOST_accepts_unverifiable_signature :
    verifyDeleteEvent toySig
      { messageId := strCodes "m1", chatId := strCodes "c",
        senderId := strCodes "alice", signature := strCodes "####",
        timestamp := 5 } (strCodes "Bw==") = false ∧
    importPublicKey toySig (strCodes "Bw==") = some 7 ∧
    deletePOST (some "alice") (some "m1") (some "c") (some "####") (some 5) 10 1 sampleDb =
      (.ok 1,
       { sampleDb with
         messages := [{ mid := "m1", chatId := "c", senderId := "alice",
                        ciphertext := "", iv := "", contentType := "deleted",
                        createdAt := 0 }],
         deleteEvents := [{ deid := 1, messageId := "m1", chatId := "c",
                            senderId := "alice", signature := "####", timestamp := 5,
                            delivered := false }] }) := by
  refine ⟨by decide, by decide, by decide⟩

/-- C3 amended.  Server-side, a deletion request is accepted for storage
and the target tombstoned exactly when the requester is authenticated, the
three fields are present, the requester is a member of the chat, the
target message exists, and the requester equals the message's sender — the
server never verifies the signature, storing it as sent; any request
failing those checks causes no state change.  Signature verification is
enforced client-side instead: `processDeleteEvents` applies a delete
locally only for events whose `verifyDeleteEvent` returns true. -/
theorem deletePOST_checks_characterization {PrivK PubK V : Type}
    (S : SubtleSig PrivK PubK)
    (uid mId cId sigStr : String) (ts : Option Nat) (now newDeid : Nat) (db : ChatDb) :
    ((mId ≠ "" ∧ cId ≠ "" ∧ sigStr ≠ "" ∧ (cId, uid) ∈ db.members ∧
      ∃ m, db.messages.find? (fun mm => mm.mid == mId) = some m ∧ m.senderId = uid) →
      deletePOST (some uid) (some mId) (some cId) (some sigStr) ts now newDeid db =
        (.ok newDeid,
         { db with
           deleteEvents := db.deleteEvents ++
             [{ deid := newDeid, messageId := mId, chatId := cId, senderId := uid,
                signature := sigStr,
                timestamp := match ts with
                  | some t => if t ≠ 0 then t else now
                  | none => now,
                delivered := false }],
           messages := db.messages.map (fun m =>
             if m.mid = mId then
               { m with ciphertext := "", iv := "", contentType := "deleted" }
             else m) })) ∧
    (¬(mId ≠ "" ∧ cId ≠ "" ∧ sigStr ≠ "" ∧ (cId, uid) ∈ db.members ∧
       ∃ m, db.messages.find? (fun mm => mm.mid == mId) = some m ∧ m.senderId = uid) →
      (deletePOST (some uid) (some mId) (some cId) (some sigStr) ts now newDeid db).2 = db ∧
      ∀ n, (deletePOST (some uid) (some mId) (some cId) (some sigStr) ts now newDeid db).1 ≠
        DeletePostRes.ok n) ∧
    (∀ (events : List DeleteEventWithKey) (store : List (JStr × V)) (mid2 : JStr),
      mid2 ∈ (processDeleteEvents S events store).1 →
      ∃ ev, ev ∈ events ∧ ev.messageId = mid2 ∧
        verifyDeleteEvent S
          { messageId := ev.messageId, chatId := ev.chatId, senderId := ev.senderId,
            signature := ev.signature, timestamp := ev.timestamp }
          (ev.senderPublicKey.getD []) = true) := by
  refine ⟨?_, ?_, ?_⟩
  · rintro ⟨h1, h2, h3, h4, m, hf, hown⟩
    simp only [deletePOST, jsTruthyS]
    rw [if_neg (by simp [h1, h2, h3])]
    simp only [Option.getD_some]
    rw [if_neg (by simp [h4])]
    rw [hf]
    simp only
    rw [if_neg (by simp [hown])]
  · intro hnot
    by_cases h1 : mId = ""
    · constructor <;> simp [deletePOST, jsTruthyS, h1]
    by_cases h2 : cId = ""
    · constructor <;> simp [deletePOST, jsTruthyS, h1, h2]
    by_cases h3 : sigStr = ""
    · constructor <;> simp [deletePOST, jsTruthyS, h1, h2, h3]
    by_cases h4 : (cId, uid) ∈ db.members
    case neg => constructor <;> simp [deletePOST, jsTruthyS, h1, h2, h3, h4]
    rcases hf : db.messages.find? (fun mm => mm.mid == mId) with _ | m
    · constructor <;> simp [deletePOST, jsTruthyS, h1, h2, h3, h4, hf]
    by_cases hown : m.senderId = uid
    · exact absurd ⟨h1, h2, h3, h4, m, hf, hown⟩ hnot
    · constructor <;> simp [deletePOST, jsTruthyS, h1, h2, h3, h4, hf, hown]
  · intro events
    induction events with
    | nil =>
      intro store mid2 h
      simp [processDeleteEvents] at h
    | cons e rest ih =>
      intro store mid2 h
      simp only [processDeleteEvents] at h
      by_cases hk : jsTruthyStr e.senderPublicKey = true
      · rw [if_neg (by simp [hk])] at h
        by_cases hv : verifyDeleteEvent S
            { messageId := e.messageId, chatId := e.chatId, senderId := e.senderId,
              signature := e.signature, timestamp := e.timestamp }
            (e.senderPublicKey.getD []) = true
        · rw [if_neg (by simp [hv])] at h
          by_cases ha : store.any (fun kv => kv.1 == e.messageId) = true
          · rw [if_pos (by simp [ha])] at h
            simp only at h
            rcases List.mem_cons.mp h with he | hr
            · exact ⟨e, by simp, he.symm, hv⟩
            · obtain ⟨ev, hin, hh⟩ :=
                ih (store.filter (fun kv => ¬ kv.1 == e.messageId)) mid2 hr
              exact ⟨ev, by simp [hin], hh⟩
          · rw [if_neg (by simp [ha])] at h
            obtain ⟨ev, hin, hh⟩ := ih store mid2 h
            exact ⟨ev, by simp [hin], hh⟩
        · rw [if_pos (by simp [hv])] at h
          obtain ⟨ev, hin, hh⟩ := ih store mid2 h
          exact ⟨ev, by simp [hin], hh⟩
      · rw [if_pos (by simp [hk])] at h
        obtain ⟨ev, hin, hh⟩ := ih store mid2 h
        exact ⟨ev, by simp [hin], hh⟩

/-- Witness for the amended C3 at a concrete accepted request and a
concrete rejected (non-member) request. -/
theorem deletePOST_checks_characterization_witness :
    (deletePOST (some "alice") (some "m1") (some "c") (some "AA==") (some 5) 10 1
        sampleDb).1 = .ok 1 ∧
    (deletePOST (some "mallory") (some "m1") (some "c") (some "AA==") (some 5) 10 1
        sampleDb).2 = sampleDb := by
  have main1 := (deletePOST_checks_characterization (V := Nat) yesSig
    "alice" "m1" "c" "AA==" (some 5) 10 1 sampleDb).1
  have main2 := (deletePOST_checks_characterization (V := Nat) yesSig
    "mallory" "m1" "c" "AA==" (some 5) 10 1 sampleDb).2.1
  refine ⟨?_, ?_⟩
  · rw [main1 ⟨by decide, by decide, by decide, by decide,
      { mid := "m1", chatId := "c", senderId := "alice", ciphertext := "CT",
        iv := "IV", contentType := "text", createdAt := 0 }, by decide, by decide⟩]
  · exact (main2 (by decide)).1

/-- A store with two members of chat c and one undelivered delete event. -/
def sampleDb7 : ChatDb :=
  { members := [("c", "A"), ("c", "B")],
    messages := [],
    deleteEvents := [{ deid := 1, messageId := "m1", chatId := "c", senderId := "A",
                       signature := "s", timestamp := 3, delivered := false }],
    userKeys := [("A", some "PK")] }

/-- Counterexample to C7 as stated: participant A's messages fetch returns
the undelivered delete record and flips its single `delivered` flag, after
which participant B's fetch of the same endpoint returns no delete events
— one participant's fetch does prevent the other from receiving the
record there. -/
theorem messagesGET_delivery_not_per_recipient :
    (messagesGET (some "A") (some "c") none 50 sampleDb7).1 =
      MessagesGetRes.ok []
        [{ deid := 1, messageId := "m1", chatId := "c", senderId := "A",
           signature := "s", timestamp := 3, delivered := false }] none ∧
    (messagesGET (some "B") (some "c") none 50
        (messagesGET (some "A") (some "c") none 50 sampleDb7).2).1 =
      MessagesGetRes.ok [] [] none := by
  refine ⟨by decide, by decide⟩

/-- C7 amended.  `delivered` is one boolean per delete record, not a flag
per recipient: a participant's messages fetch returns exactly the chat's
undelivered delete events and marks all of them delivered, so a subsequent
messages fetch by any other participant returns none of them; the records
themselves are retained, and the delete-sync route ignores the flag and
still returns them (with the sender's published key) to any member. -/
theorem messagesGET_deleteEvents_inv (u cid : String) (cursor : Option String)
    (limit : Nat) (db2 : ChatDb) (hm : (cid, u) ∈ db2.members)
    (msgs : List ChatMessage) (evs : List DeleteEventRec) (nc : Option String)
    (h : (messagesGET (some u) (some cid) cursor limit db2).1 = .ok msgs evs nc) :
    evs = db2.deleteEvents.filter (fun e => e.chatId == cid && !e.delivered) := by
  simp only [messagesGET] at h
  rw [if_neg (by simp [hm])] at h
  simp only [MessagesGetRes.ok.injEq] at h
  exact h.2.1.symm

theorem messagesGET_state_inv (u cid : String) (cursor : Option String)
    (limit : Nat) (db2 : ChatDb) (hm : (cid, u) ∈ db2.members) :
    (messagesGET (some u) (some cid) cursor limit db2).2.members = db2.members ∧
    (messagesGET (some u) (some cid) cursor limit db2).2.userKeys = db2.userKeys ∧
    (messagesGET (some u) (some cid) cursor limit db2).2.deleteEvents =
      (if 0 < (db2.deleteEvents.filter (fun e => e.chatId == cid && !e.delivered)).length
       then db2.deleteEvents.map (fun e =>
         if e.deid ∈ (db2.deleteEvents.filter (fun x =>
             x.chatId == cid && !x.delivered)).map DeleteEventRec.deid
         then { e with delivered := true } else e)
       else db2.deleteEvents) := by
  simp only [messagesGET]
  rw [if_neg (by simp [hm])]
  exact ⟨rfl, rfl, rfl⟩

theorem deleteEvent_delivery_flag_global (db : ChatDb) (A B cid : String)
    (hA : (cid, A) ∈ db.members) (hB : (cid, B) ∈ db.members)
    (msgs : List ChatMessage) (evs : List DeleteEventRec) (nc : Option String)
    (hr : (messagesGET (some A) (some cid) none 50 db).1 = .ok msgs evs nc) :
    evs = db.deleteEvents.filter (fun e => e.chatId == cid && !e.delivered) ∧
    (∀ e ∈ evs, e.delivered = false) ∧
    (∀ msgs2 evs2 nc2,
      (messagesGET (some B) (some cid) none 50
        (messagesGET (some A) (some cid) none 50 db).2).1 = .ok msgs2 evs2 nc2 →
      evs2 = []) ∧
    (∀ e ∈ evs, ∀ out,
      deleteGET (some B) (some cid) none
        (messagesGET (some A) (some cid) none 50 db).2 = .ok out →
      ({ e with delivered := true }, (db.userKeys.lookup e.senderId).join) ∈ out) := by
  obtain ⟨hmembers, hkeys, hevents⟩ := messagesGET_state_inv A cid none 50 db hA
  have hevs := messagesGET_deleteEvents_inv A cid none 50 db hA msgs evs nc hr
  subst hevs
  have hdeliv : ∀ e2 ∈ (messagesGET (some A) (some cid) none 50 db).2.deleteEvents,
      ¬(e2.chatId == cid && !e2.delivered) = true := by
    rw [hevents]
    by_cases hlen :
        0 < (db.deleteEvents.filter (fun e => e.chatId == cid && !e.delivered)).length
    · rw [if_pos hlen]
      intro e2 he2
      rcases List.mem_map.mp he2 with ⟨e0, he0, hf⟩
      by_cases hid : e0.deid ∈ (db.deleteEvents.filter (fun x =>
          x.chatId == cid && !x.delivered)).map DeleteEventRec.deid
      · rw [if_pos hid] at hf
        rw [← hf]
        simp
      · rw [if_neg hid] at hf
        rw [← hf]
        intro hpred
        exact hid (List.mem_map_of_mem DeleteEventRec.deid
          (List.mem_filter.mpr ⟨he0, hpred⟩))
    · rw [if_neg hlen]
      intro e2 he2 hpred
      have hnil : (db.deleteEvents.filter (fun e => e.chatId == cid && !e.delivered)) = [] := by
        cases hfe : db.deleteEvents.filter (fun e => e.chatId == cid && !e.delivered) with
        | nil => rfl
        | cons x xs => rw [hfe] at hlen; simp at hlen
      have := List.filter_eq_nil_iff.mp hnil e2 he2
      exact this hpred
  refine ⟨rfl, ?_, ?_, ?_⟩
  · intro e he
    have := (List.mem_filter.mp he).2
    simp at this
    exact this.2
  · intro msgs2 evs2 nc2 hr2
    have hmem2 : (cid, B) ∈ (messagesGET (some A) (some cid) none 50 db).2.members := by
      rw [hmembers]; exact hB
    have hfilter2 : (messagesGET (some A) (some cid) none 50 db).2.deleteEvents.filter
        (fun e => e.chatId == cid && !e.delivered) = [] :=
      List.filter_eq_nil_iff.mpr (fun e2 he2 => hdeliv e2 he2)
    have := messagesGET_deleteEvents_inv B cid none 50
      (messagesGET (some A) (some cid) none 50 db).2 hmem2 msgs2 evs2 nc2 hr2
    rw [hfilter2] at this
    exact this
  · intro e he out hout
    have heDb : e ∈ db.deleteEvents := (List.mem_filter.mp he).1
    have hpred := (List.mem_filter.mp he).2
    have hid : e.deid ∈ (db.deleteEvents.filter (fun x =>
        x.chatId == cid && !x.delivered)).map DeleteEventRec.deid :=
      List.mem_map_of_mem DeleteEventRec.deid he
    have hlen : 0 < (db.deleteEvents.filter (fun x =>
        x.chatId == cid && !x.delivered)).length := by
      cases hfe : db.deleteEvents.filter (fun x => x.chatId == cid && !x.delivered) with
      | nil => rw [hfe] at he; simp at he
      | cons x xs => simp [hfe]
    have hmarked : ({ e with delivered := true } : DeleteEventRec) ∈
        (messagesGET (some A) (some cid) none 50 db).2.deleteEvents := by
      rw [hevents]
      rw [if_pos hlen]
      have himg : (fun x => if x.deid ∈ (db.deleteEvents.filter (fun y =>
          y.chatId == cid && !y.delivered)).map DeleteEventRec.deid
          then { x with delivered := true } else x) e = { e with delivered := true } := by
        dsimp only
        rw [if_pos hid]
      rw [← himg]
      exact List.mem_map_of_mem _ heDb
    have hmem2 : (cid, B) ∈ (messagesGET (some A) (some cid) none 50 db).2.members := by
      rw [hmembers]; exact hB
    have hchat : (e.chatId == cid) = true := by
      simp at hpred
      simp [hpred.1]
    simp only [deleteGET] at hout
    rw [if_neg (by simp [hmem2])] at hout
    simp only [DeleteGetRes.ok.injEq] at hout
    rw [← hout]
    have hin : ({ e with delivered := true } : DeleteEventRec) ∈
        (messagesGET (some A) (some cid) none 50 db).2.deleteEvents.filter (fun e2 =>
          e2.chatId == cid && true) := by
      refine List.mem_filter.mpr ⟨hmarked, ?_⟩
      simpa using hchat
    rw [hkeys]
    exact List.mem_map_of_mem
      (fun e2 => (e2, (db.userKeys.lookup e2.senderId).join)) hin

/-- Witness for the amended C7 at the concrete two-member store. -/
theorem deleteEvent_delivery_flag_global_witness :
    (messagesGET (some "A") (some "c") none 50 sampleDb7).1 =
      MessagesGetRes.ok []
        [{ deid := 1, messageId := "m1", chatId := "c", senderId := "A",
           signature := "s", timestamp := 3, delivered := false }] none ∧
    (({ deid := 1, messageId := "m1", chatId := "c", senderId := "A",
        signature := "s", timestamp := 3, delivered := true } : DeleteEventRec),
      (some "PK" : Option String)) ∈
      [(({ deid := 1, messageId := "m1", chatId := "c", senderId := "A",
           signature := "s", timestamp := 3, delivered := true } : DeleteEventRec),
        (some "PK" : Option String))] := by
  have main := deleteEvent_delivery_flag_global sampleDb7 "A" "B" "c"
    (by decide) (by decide) []
    [{ deid := 1, messageId := "m1", chatId := "c", senderId := "A",
       signature := "s", timestamp := 3, delivered := false }] none (by decide)
  refine ⟨by decide, ?_⟩
  have h4 := main.2.2.2
    { deid := 1, messageId := "m1", chatId := "c", senderId := "A",
      signature := "s", timestamp := 3, delivered := false } (by decide)
    [(({ deid := 1, messageId := "m1", chatId := "c", senderId := "A",
         signature := "s", timestamp := 3, delivered := true } : DeleteEventRec),
      (some "PK" : Option String))] (by decide)
  exact h4

theorem signalGET_inv (uid cid : String) (now : Nat) (db : SignalDb)
    (hm : (cid, uid) ∈ db.members) :
    signalGET (some uid) (some cid) now db =
      (.ok (db.events.filter (fun s => decide (signalMatches cid uid now s))),
       { db with events :=
          if (db.events.filter (fun s => decide (signalMatches cid uid now s))).length > 0
          then db.events.map (fun s =>
            if s.sid ∈ (db.events.filter (fun s =>
                decide (signalMatches cid uid now s))).map SignalEvent.sid
            then { s with consumed := true } else s)
          else db.events }) := by
  simp only [signalGET]
  rw [if_neg (by simp [hm])]

/-- C2.  A single signal fetch returns exactly the unconsumed, unexpired
records addressed to the user in the chat (creation-ordered, given the
table is stored in creation order), marks each of them consumed in the
same step, an immediate second fetch with the same parameters (at the same
or any later time) returns none, no returned record is expired, and no
returned record is ever returned again by any later poll of any user on
the resulting state. -/
theorem fetch_signals_exactly_once (db : SignalDb) (uid cid : String) (now now2 : Nat)
    (hmem : (cid, uid) ∈ db.members)
    (hsorted : db.events.Pairwise (fun a b => a.createdAt ≤ b.createdAt))
    (hle : now ≤ now2)
    (sigs : List SignalEvent) (db2 : SignalDb)
    (hr : signalGET (some uid) (some cid) now db = (.ok sigs, db2)) :
    sigs = db.events.filter (fun s => decide (signalMatches cid uid now s)) ∧
    (∀ s ∈ sigs,
      s.chatId = cid ∧ s.toUserId = some uid ∧ s.consumed = false ∧ now < s.expiresAt) ∧
    sigs.Pairwise (fun a b => a.createdAt ≤ b.createdAt) ∧
    (∀ s ∈ sigs, ∀ s2 ∈ db2.events, s2.sid = s.sid → s2.consumed = true) ∧
    (signalGET (some uid) (some cid) now2 db2).1 = .ok [] ∧
    (∀ s ∈ sigs, ∀ uid3 cid3 now3 sigs3 db3,
      signalGET (some uid3) (some cid3) now3 db2 = (.ok sigs3, db3) → s ∉ sigs3) := by
  rw [signalGET_inv uid cid now db hmem] at hr
  simp only [Prod.mk.injEq, SignalGetRes.ok.injEq] at hr
  obtain ⟨hsigs, hdb2⟩ := hr
  subst hsigs
  have hmatch : ∀ s ∈ db.events.filter (fun s => decide (signalMatches cid uid now s)),
      signalMatches cid uid now s := by
    intro s hs
    have := (List.mem_filter.mp hs).2
    exact of_decide_eq_true this
  have hmem2 : (cid, uid) ∈ db2.members := by rw [← hdb2]; exact hmem
  have hconsumed : ∀ s2 ∈ db2.events,
      s2.consumed = false →
      s2 ∈ db.events ∧ s2.sid ∉ (db.events.filter (fun s =>
        decide (signalMatches cid uid now s))).map SignalEvent.sid := by
    intro s2 hs2 hcons
    rw [← hdb2] at hs2
    simp only at hs2
    by_cases hlen : (db.events.filter (fun s =>
        decide (signalMatches cid uid now s))).length > 0
    · rw [if_pos hlen] at hs2
      rcases List.mem_map.mp hs2 with ⟨s0, hs0, hf⟩
      by_cases hid : s0.sid ∈ (db.events.filter (fun s =>
          decide (signalMatches cid uid now s))).map SignalEvent.sid
      · rw [if_pos hid] at hf
        rw [← hf] at hcons
        simp at hcons
      · rw [if_neg hid] at hf
        rw [← hf]
        exact ⟨hs0, hid⟩
    · rw [if_neg hlen] at hs2
      refine ⟨hs2, fun hid => ?_⟩
      rcases List.mem_map.mp hid with ⟨s0, hs0, _⟩
      have hnil : db.events.filter (fun s => decide (signalMatches cid uid now s)) = [] := by
        cases hfe : db.events.filter (fun s => decide (signalMatches cid uid now s)) with
        | nil => rfl
        | cons x xs => rw [hfe] at hlen; simp at hlen
      rw [hnil] at hs0
      simp at hs0
  refine ⟨rfl, ?_, ?_, ?_, ?_, ?_⟩
  · intro s hs
    exact hmatch s hs
  · exact List.Pairwise.sublist (List.filter_sublist db.events) hsorted
  · intro s hs s2 hs2 hsid
    by_contra hcons
    have hcons2 : s2.consumed = false := by
      cases hc : s2.consumed
      · rfl
      · exact absurd hc hcons
    obtain ⟨_, hnid⟩ := hconsumed s2 hs2 hcons2
    rw [hsid] at hnid
    exact hnid (List.mem_map_of_mem SignalEvent.sid hs)
  · rw [signalGET_inv uid cid now2 db2 hmem2]
    simp only [SignalGetRes.ok.injEq]
    rw [List.filter_eq_nil_iff]
    intro s2 hs2 hdec
    have hm2 := of_decide_eq_true hdec
    obtain ⟨hchat, hto, hcons, hexp⟩ := hm2
    obtain ⟨hs2db, hnid⟩ := hconsumed s2 hs2 hcons
    apply hnid
    apply List.mem_map_of_mem SignalEvent.sid
    refine List.mem_filter.mpr ⟨hs2db, decide_eq_true ?_⟩
    exact ⟨hchat, hto, hcons, by omega⟩
  · intro s hs uid3 cid3 now3 sigs3 db3 hr3 hmem3
    have hscons : s.consumed = false := (hmatch s hs).2.2.1
    by_cases hm3 : (cid3, uid3) ∈ db2.members
    · rw [signalGET_inv uid3 cid3 now3 db2 hm3] at hr3
      simp only [Prod.mk.injEq, SignalGetRes.ok.injEq] at hr3
      obtain ⟨hsigs3, _⟩ := hr3
      rw [← hsigs3] at hmem3
      have hs2db2 : s ∈ db2.events := (List.mem_filter.mp hmem3).1
      obtain ⟨_, hnid⟩ := hconsumed s hs2db2 hscons
      exact hnid (List.mem_map_of_mem SignalEvent.sid hs)
    · simp [signalGET, hm3] at hr3

/-- A one-signal store: one pending offer for user u in chat c. -/
def sampleSigDb : SignalDb :=
  { members := [("c", "u")],
    events := [{ sid := 1, chatId := "c", fromUserId := "v", toUserId := some "u",
                 type := "offer", payload := "p", createdAt := 0, expiresAt := 20,
                 consumed := false }] }

/-- Witness for C2: the concrete one-signal store; the fetch returns the
record and consumes it, and the immediate second fetch returns nothing. -/
theorem fetch_signals_exactly_once_witness :
    signalGET (some "u") (some "c") 10 sampleSigDb =
      (.ok [{ sid := 1, chatId := "c", fromUserId := "v", toUserId := some "u",
              type := "offer", payload := "p", createdAt := 0, expiresAt := 20,
              consumed := false }],
       { members := [("c", "u")],
         events := [{ sid := 1, chatId := "c", fromUserId := "v", toUserId := some "u",
                      type := "offer", payload := "p", createdAt := 0, expiresAt := 20,
                      consumed := true }] }) ∧
    (signalGET (some "u") (some "c") 10
      ({ members := [("c", "u")],
         events := [{ sid := 1, chatId := "c", fromUserId := "v", toUserId := some "u",
                      type := "offer", payload := "p", createdAt := 0, expiresAt := 20,
                      consumed := true }] } : SignalDb)).1 = .ok [] := by
  have main := fetch_signals_exactly_once sampleSigDb "u" "c" 10 10 (by decide)
    (by decide) (by decide)
    [{ sid := 1, chatId := "c", fromUserId := "v", toUserId := some "u",
       type := "offer", payload := "p", createdAt := 0, expiresAt := 20,
       consumed := false }]
    ({ members := [("c", "u")],
       events := [{ sid := 1, chatId := "c", fromUserId := "v", toUserId := some "u",
                    type := "offer", payload := "p", createdAt := 0, expiresAt := 20,
                    consumed := true }] } : SignalDb) (by decide)
  exact ⟨by decide, main.2.2.2.2.1⟩

/-- The row a broadcast post (no target user) creates. -/
def broadcastEv (uid ty pl cid : String) (now newSid : Nat) : SignalEvent :=
  { sid := newSid, chatId := cid, fromUserId := uid, toUserId := none,
    type := ty, payload := pl, createdAt := now,
    expiresAt := now + SIGNAL_TTL_MS, consumed := false }

/-- State after a successful broadcast post: the new row appended, then
the expired rows purged. -/
def postBroadcastDb (db : SignalDb) (uid ty pl cid : String) (now newSid : Nat) : SignalDb :=
  { db with
    events :=
      (db.events ++ [broadcastEv uid ty pl cid now newSid]).filter
        (fun s => decide (¬ s.expiresAt < now)) }

theorem signalPOST_broadcast_inv (uid ty pl cid : String) (now newSid : Nat)
    (db : SignalDb)
    (hty : ty ∈ ["offer", "answer", "ice-candidate"]) (hty0 : ty ≠ "") (hpl : pl ≠ "")
    (hcid : cid ≠ "") (hmem : (cid, uid) ∈ db.members) :
    signalPOST (some uid)
      { type := some ty, payload := some pl, toUserId := none, chatId := some cid }
      now newSid db =
      (.ok newSid,
       (postBroadcastDb db uid ty pl cid now newSid)) := by
  simp only [signalPOST, jsTruthyS, broadcastEv]
  rw [if_neg (by simp [hty0, hpl, hcid])]
  simp only [Option.getD_some]
  rw [if_neg (by simp [hty])]
  rw [if_neg (by simp [hmem])]
  rfl

theorem signalPOST_ok_unexpired (u4 : Option String) (body4 : SignalPostBody)
    (now4 sid4 : Nat) (dbx : SignalDb) (n : Nat) (db5 : SignalDb)
    (hr : signalPOST u4 body4 now4 sid4 dbx = (.ok n, db5)) :
    ∀ s ∈ db5.events, ¬ s.expiresAt < now4 := by
  cases u4 with
  | none => simp [signalPOST] at hr
  | some uid4 =>
    simp only [signalPOST, jsTruthyS] at hr
    by_cases h1 : ¬(jsTruthyS body4.type ∧ jsTruthyS body4.payload ∧ jsTruthyS body4.chatId)
    · rw [if_pos (by simpa [jsTruthyS] using h1)] at hr
      simp at hr
    · rw [if_neg (by simpa [jsTruthyS] using h1)] at hr
      by_cases h2 : body4.type.getD "" ∉ ["offer", "answer", "ice-candidate"]
      · rw [if_pos h2] at hr
        simp at hr
      · rw [if_neg h2] at hr
        by_cases h3 : (body4.chatId.getD "", uid4) ∉ dbx.members
        · rw [if_pos h3] at hr
          simp at hr
        · rw [if_neg h3] at hr
          by_cases h4 : jsTruthyS body4.toUserId = true
          · rw [if_pos (by simpa [jsTruthyS] using h4)] at hr
            by_cases h5 : (body4.chatId.getD "", body4.toUserId.getD "") ∉ dbx.members
            · rw [if_pos h5] at hr
              simp at hr
            · rw [if_neg h5] at hr
              simp only [Prod.mk.injEq] at hr
              obtain ⟨_, hdb5⟩ := hr
              intro s hs
              rw [← hdb5] at hs
              exact of_decide_eq_true (List.mem_filter.mp hs).2
          · rw [if_neg (by simpa [jsTruthyS] using h4)] at hr
            simp only [Prod.mk.injEq] at hr
            obtain ⟨_, hdb5⟩ := hr
            intro s hs
            rw [← hdb5] at hs
            exact of_decide_eq_true (List.mem_filter.mp hs).2

/-- C10.  A signal posted with no target user is accepted (given the
validations pass) and stored with `toUserId` null; the fetch query matches
only records addressed to the polling user, so the broadcast record is
never returned by any fetch on any state, survives any fetch on the
post-state, and is removed only by the expiry cleanup a later successful
post performs once the record has expired. -/
theorem broadcast_signal_never_fetched (db : SignalDb) (uid ty pl cid : String)
    (now newSid : Nat)
    (hty : ty ∈ ["offer", "answer", "ice-candidate"]) (hty0 : ty ≠ "") (hpl : pl ≠ "")
    (hcid : cid ≠ "") (hmem : (cid, uid) ∈ db.members)
    (hfresh : ∀ s ∈ db.events, s.sid ≠ newSid) :
    signalPOST (some uid)
      { type := some ty, payload := some pl, toUserId := none, chatId := some cid }
      now newSid db =
      (.ok newSid,
       (postBroadcastDb db uid ty pl cid now newSid)) ∧
    broadcastEv uid ty pl cid now newSid ∈
      (db.events ++ [broadcastEv uid ty pl cid now newSid]).filter
        (fun s => decide (¬ s.expiresAt < now)) ∧
    (∀ (db3 : SignalDb) (uid3 cid3 : String) (now3 : Nat) (sigs3 : List SignalEvent)
       (db4 : SignalDb),
      signalGET (some uid3) (some cid3) now3 db3 = (.ok sigs3, db4) →
      broadcastEv uid ty pl cid now newSid ∉ sigs3) ∧
    (∀ (uid3 cid3 : String) (now3 : Nat) (sigs3 : List SignalEvent) (db4 : SignalDb),
      signalGET (some uid3) (some cid3) now3
        (postBroadcastDb db uid ty pl cid now newSid) = (.ok sigs3, db4) →
      broadcastEv uid ty pl cid now newSid ∈ db4.events) ∧
    (∀ (uid4 : String) (body4 : SignalPostBody) (now4 sid4 n : Nat) (db5 : SignalDb),
      signalPOST (some uid4) body4 now4 sid4
        (postBroadcastDb db uid ty pl cid now newSid) = (.ok n, db5) →
      now + SIGNAL_TTL_MS < now4 →
      broadcastEv uid ty pl cid now newSid ∉ db5.events) := by
  have hkeep : broadcastEv uid ty pl cid now newSid ∈
      (db.events ++ [broadcastEv uid ty pl cid now newSid]).filter
        (fun s => decide (¬ s.expiresAt < now)) := by
    refine List.mem_filter.mpr ⟨by simp, decide_eq_true ?_⟩
    simp [broadcastEv, SIGNAL_TTL_MS]
  have hnofetch : ∀ (db3 : SignalDb) (uid3 cid3 : String) (now3 : Nat)
      (sigs3 : List SignalEvent) (db4 : SignalDb),
      signalGET (some uid3) (some cid3) now3 db3 = (.ok sigs3, db4) →
      broadcastEv uid ty pl cid now newSid ∉ sigs3 := by
    intro db3 uid3 cid3 now3 sigs3 db4 hr3 hin
    by_cases hm3 : (cid3, uid3) ∈ db3.members
    · rw [signalGET_inv uid3 cid3 now3 db3 hm3] at hr3
      simp only [Prod.mk.injEq, SignalGetRes.ok.injEq] at hr3
      rw [← hr3.1] at hin
      have hm := of_decide_eq_true (List.mem_filter.mp hin).2
      have : (broadcastEv uid ty pl cid now newSid).toUserId = some uid3 := hm.2.1
      simp [broadcastEv] at this
    · simp [signalGET, hm3] at hr3
  refine ⟨signalPOST_broadcast_inv uid ty pl cid now newSid db hty hty0 hpl hcid hmem,
    hkeep, hnofetch, ?_, ?_⟩
  · intro uid3 cid3 now3 sigs3 db4 hr3
    by_cases hm3 : (cid3, uid3) ∈
        ((postBroadcastDb db uid ty pl cid now newSid) : SignalDb).members
    · rw [signalGET_inv uid3 cid3 now3 _ hm3] at hr3
      simp only [Prod.mk.injEq, SignalGetRes.ok.injEq] at hr3
      rw [← hr3.2]
      simp only
      by_cases hlen : ((((postBroadcastDb db uid ty pl cid now newSid) : SignalDb)).events.filter
          (fun s => decide (signalMatches cid3 uid3 now3 s))).length > 0
      · rw [if_pos hlen]
        have hnid : (broadcastEv uid ty pl cid now newSid).sid ∉
            ((((postBroadcastDb db uid ty pl cid now newSid) : SignalDb)).events.filter
              (fun s => decide (signalMatches cid3 uid3 now3 s))).map SignalEvent.sid := by
          intro hin
          rcases List.mem_map.mp hin with ⟨s0, hs0, hsid⟩
          have hs0m := of_decide_eq_true (List.mem_filter.mp hs0).2
          have hs0db2 := (List.mem_filter.mp hs0).1
          have hs0app : s0 ∈ db.events ++ [broadcastEv uid ty pl cid now newSid] :=
            (List.mem_filter.mp hs0db2).1
          rcases List.mem_append.mp hs0app with h0 | h0
          · exact hfresh s0 h0 (by simpa [broadcastEv] using hsid)
          · simp only [List.mem_singleton] at h0
            rw [h0] at hs0m
            have : (broadcastEv uid ty pl cid now newSid).toUserId = some uid3 := hs0m.2.1
            simp [broadcastEv] at this
        have himg : (fun s => if s.sid ∈
            ((((postBroadcastDb db uid ty pl cid now newSid) : SignalDb)).events.filter
              (fun s => decide (signalMatches cid3 uid3 now3 s))).map SignalEvent.sid
            then { s with consumed := true } else s)
            (broadcastEv uid ty pl cid now newSid) =
            broadcastEv uid ty pl cid now newSid := by
          dsimp only
          rw [if_neg hnid]
        rw [← himg]
        exact List.mem_map_of_mem _ hkeep
      · rw [if_neg hlen]
        exact hkeep
    · simp [signalGET, hm3] at hr3
  · intro uid4 body4 now4 sid4 n db5 hr4 hlate hin
    have := signalPOST_ok_unexpired (some uid4) body4 now4 sid4 _ n db5 hr4
      (broadcastEv uid ty pl cid now newSid) hin
    simp [broadcastEv, SIGNAL_TTL_MS] at this
    simp [SIGNAL_TTL_MS] at hlate
    omega

/-- Witness for C10: a concrete broadcast post into an empty mailbox,
and its removal by a later post's cleanup after expiry. -/
theorem broadcast_signal_never_fetched_witness :
    signalPOST (some "u")
      { type := some "offer", payload := some "p", toUserId := none, chatId := some "c" }
      0 1 ({ members := [("c", "u")], events := [] } : SignalDb) =
      (.ok 1,
       { members := [("c", "u")],
         events := [{ sid := 1, chatId := "c", fromUserId := "u", toUserId := none,
                      type := "offer", payload := "p", createdAt := 0, expiresAt := 30000,
                      consumed := false }] }) ∧
    broadcastEv "u" "offer" "p" "c" 0 1 ∉
      ([{ sid := 2, chatId := "c", fromUserId := "u", toUserId := none,
          type := "offer", payload := "p", createdAt := 40000, expiresAt := 70000,
          consumed := false }] : List SignalEvent) := by
  have main := broadcast_signal_never_fetched
    ({ members := [("c", "u")], events := [] } : SignalDb) "u" "offer" "p" "c" 0 1
    (by decide) (by decide) (by decide) (by decide) (by decide) (by decide)
  refine ⟨?_, ?_⟩
  · have h1 := main.1
    simpa [broadcastEv, SIGNAL_TTL_MS] using h1
  · have h5 := main.2.2.2.2 "u"
      { type := some "offer", payload := some "p", toUserId := none, chatId := some "c" }
      40000 2 2
      ({ members := [("c", "u")],
         events := [{ sid := 2, chatId := "c", fromUserId := "u", toUserId := none,
                      type := "offer", payload := "p", createdAt := 40000,
                      expiresAt := 70000, consumed := false }] } : SignalDb)
      (by decide) (by decide)
    exact h5

/-- Counterexample to C8 as stated: starting from a stored key set, a
reset whose persistence of the new keys fails leaves the device with no
key set at all — `clearKeys` wipes the store before `initializeKeys`
runs, and the caught save failure rolls nothing back: the store ends
empty, nothing is loadable, `isReady` is false. -/
theorem handleReset_save_failure_loses_old_keys :
    handleReset
      (some { encryptionKey := 1, signingPub := 2, signingPriv := 3,
              exportedPublicKey := [65] })
      false true 4 5 6 (fun _ => [0]) =
      .ok { returned := none, store := none, isReady := false } := rfl

/-- C8 amended.  The reset flow is not atomic in the direction the claim
states: if the clear itself fails, the rejection propagates and the
previous key set is untouched; but if the clear succeeds and persisting
the new set fails, the device is left with no key set (null return, empty
store, not ready) — the previous set is destroyed, not restored.  Only
when both steps succeed does the reset complete with the new set
persisted. -/
theorem handleReset_failure_behaviour (st : Option StoredKeyPair)
    (newEnc newSignPub newSignPriv : Nat) (spkiExport : Nat → List Nat) :
    (∀ saveFails,
      handleReset st true saveFails newEnc newSignPub newSignPriv spkiExport = .error () ∧
      clearKeys st true = .error ()) ∧
    handleReset st false true newEnc newSignPub newSignPriv spkiExport =
      .ok { returned := none, store := none, isReady := false } ∧
    handleReset st false false newEnc newSignPub newSignPriv spkiExport =
      .ok { returned := some (base64Encode (spkiExport newSignPub)),
            store := some { encryptionKey := newEnc, signingPub := newSignPub,
                            signingPriv := newSignPriv,
                            exportedPublicKey := base64Encode (spkiExport newSignPub) },
            isReady := true } :=
  ⟨fun _ => ⟨rfl, rfl⟩, rfl, rfl⟩

/-- Witness for C9 at two concrete distinct iv draws. -/
theorem encryptMessage_fresh_nonce_witness :
    ([0, 0, 0, 0, 0, 0, 0, 0, 0, 0, 0, 1] : List Nat) ≠
      [0, 0, 0, 0, 0, 0, 0, 0, 0, 0, 0, 2] ∧
    ((encryptMessage toyAead [104, 105] 3 [0, 0, 0, 0, 0, 0, 0, 0, 0, 0, 0, 1]).iv ≠
      (encryptMessage toyAead [104, 105] 3 [0, 0, 0, 0, 0, 0, 0, 0, 0, 0, 0, 2]).iv ∧
    (encryptMessage toyAead [104, 105] 3 [0, 0, 0, 0, 0, 0, 0, 0, 0, 0, 0, 1]).ciphertext ≠
      (encryptMessage toyAead [104, 105] 3 [0, 0, 0, 0, 0, 0, 0, 0, 0, 0, 0, 2]).ciphertext) :=
  ⟨by decide,
    (encryptMessage_fresh_nonce toyAead toyAead_iv_inj toyAead_bytes
      [104, 105] (by decide) 3
      [0, 0, 0, 0, 0, 0, 0, 0, 0, 0, 0, 1] [0, 0, 0, 0, 0, 0, 0, 0, 0, 0, 0, 2]
      (by decide) (by decide) (by decide) (by decide) (by decide)).2.2⟩

end Chat
